import Mathlib

/-!
Verification of the ARM32 backend of the mold linker (src/arch-arm32.cc).

The development shallowly embeds the relocation codec (get_addend / write_addend and the
write_* helpers), the per-relocation dispatch of InputSection::apply_reloc_alloc,
EhFrameSection::apply_eh_reloc and InputSection::apply_reloc_nonalloc, the thunk lookup
get_reachable_thunk, and the .ARM.exidx builder Arm32ExidxSection::get_contents.

Machine integers are modelled as Nat / Int with explicit reductions modulo 2 ^ 16,
2 ^ 32, 2 ^ 64 at the points where the C code truncates (ul16 / ul32 stores, u64
arithmetic, i64 casts).  A fixup location is modelled as the little-endian 32-bit word
formed by the 4 bytes at the location: thm[0] is its low half-word, thm[1] its high
half-word, the ul32 view the whole word.
-/

namespace Arm32

/-- Two's-complement (u64) view of an i64/u64 value, as produced by the C implicit
integer conversions. -/
def toU64 (v : Int) : Nat := (v % (2 ^ 64 : Int)).toNat

/-- Reinterpretation of a u64 computation as an i64 value (cast in `i64 val = expr;`). -/
def toI64 (v : Int) : Int := (v + 2 ^ 63) % (2 ^ 64 : Int) - 2 ^ 63

/-- Truncating store of a value through an ul32 pointer (little-endian 32-bit word). -/
def u32 (v : Int) : Nat := (v % (2 ^ 32 : Int)).toNat

/-- The ul32 view of the word at a location. -/
def word32 (w : Nat) : Nat := w % 2 ^ 32

/-- thm[0]: the low half-word at a location. -/
def low16 (w : Nat) : Nat := w % 2 ^ 16

/-- thm[1]: the high half-word at a location. -/
def high16 (w : Nat) : Nat := (w >>> 16) % 2 ^ 16

/-- Reassemble a location word from its two little-endian ul16 half-words. -/
def combine (lo hi : Nat) : Nat := lo % 2 ^ 16 + hi % 2 ^ 16 * 2 ^ 16

/-- mold.h helper (header not under src/; semantics fixed by its call sites and the
spec): bits(val, hi, lo) extracts bit fields lo..hi. -/
def bits (v : Nat) (hi lo : Nat) : Nat := (v >>> lo) % 2 ^ (hi - lo + 1)

/-- mold.h helper: bit(val, n) extracts bit n. -/
def bit (v : Nat) (n : Nat) : Nat := bits v n n

/-- bits applied to an i64/u64 expression (C converts through the two's-complement
representation). -/
def ibits (v : Int) (hi lo : Nat) : Nat := bits (toU64 v) hi lo

/-- bit applied to an i64/u64 expression. -/
def ibit (v : Int) (n : Nat) : Nat := bit (toU64 v) n

/-- Modelled from the spec: sign_extend from mold.h (the header is not under src/)
interprets the low n bits of a value as a signed n-bit integer (spec 4.1, widths
8, 11, 16, 19/21, 24/25, 31). -/
def sign_extend (v : Nat) (n : Nat) : Int :=
  if v % 2 ^ n < 2 ^ (n - 1) then ((v % 2 ^ n : Nat) : Int)
  else ((v % 2 ^ n : Nat) : Int) - 2 ^ n

/-- Modelled from the spec: is_int from mold.h decides whether a value fits a signed
n-bit integer. -/
def is_int (v : Int) (n : Nat) : Bool := decide (-(2 ^ (n - 1) : Int) ≤ v ∧ v < 2 ^ (n - 1))

/-- align_to(v, 4) from mold.h on u64 arguments: (v + 3) cleared of its low two bits,
in 64-bit arithmetic. -/
def align4_u64 (v : Int) : Int := ((toU64 (v + 3) - toU64 (v + 3) % 4 : Nat) : Int)

/-! ### Relocation type codes (ARM ELF ABI numeric values) -/

def R_ARM_NONE : Nat := 0
def R_ARM_ABS32 : Nat := 2
def R_ARM_REL32 : Nat := 3
def R_ARM_THM_CALL : Nat := 10
def R_ARM_GOTOFF32 : Nat := 24
def R_ARM_BASE_PREL : Nat := 25
def R_ARM_GOT_BREL : Nat := 26
def R_ARM_PLT32 : Nat := 27
def R_ARM_CALL : Nat := 28
def R_ARM_JUMP24 : Nat := 29
def R_ARM_THM_JUMP24 : Nat := 30
def R_ARM_TARGET1 : Nat := 38
def R_ARM_V4BX : Nat := 40
def R_ARM_TARGET2 : Nat := 41
def R_ARM_PREL31 : Nat := 42
def R_ARM_MOVW_ABS_NC : Nat := 43
def R_ARM_MOVT_ABS : Nat := 44
def R_ARM_MOVW_PREL_NC : Nat := 45
def R_ARM_MOVT_PREL : Nat := 46
def R_ARM_THM_MOVW_ABS_NC : Nat := 47
def R_ARM_THM_MOVT_ABS : Nat := 48
def R_ARM_THM_MOVW_PREL_NC : Nat := 49
def R_ARM_THM_MOVT_PREL : Nat := 50
def R_ARM_THM_JUMP19 : Nat := 51
def R_ARM_TLS_GOTDESC : Nat := 90
def R_ARM_TLS_CALL : Nat := 91
def R_ARM_THM_TLS_CALL : Nat := 93
def R_ARM_GOT_PREL : Nat := 96
def R_ARM_THM_JUMP11 : Nat := 102
def R_ARM_THM_JUMP8 : Nat := 103
def R_ARM_TLS_GD32 : Nat := 104
def R_ARM_TLS_LDM32 : Nat := 105
def R_ARM_TLS_LDO32 : Nat := 106
def R_ARM_TLS_IE32 : Nat := 107
def R_ARM_TLS_LE32 : Nat := 108

/-! ### get_addend (decode) -/

/-- The R_ARM_THM_JUMP19 case of get_addend. -/
def get_thm_b21 (w : Nat) : Int :=
  let S := bit (low16 w) 10
  let J2 := bit (high16 w) 11
  let J1 := bit (high16 w) 13
  let imm6 := bits (low16 w) 5 0
  let imm11 := bits (high16 w) 10 0
  sign_extend (S <<< 20 ||| J2 <<< 19 ||| J1 <<< 18 ||| imm6 <<< 12 ||| imm11 <<< 1) 21

/-- The R_ARM_THM_CALL / R_ARM_THM_JUMP24 / R_ARM_THM_TLS_CALL case of get_addend. -/
def get_thm_b25 (w : Nat) : Int :=
  let S := bit (low16 w) 10
  let J1 := bit (high16 w) 13
  let J2 := bit (high16 w) 11
  let I1 := 1 - (J1 ^^^ S)
  let I2 := 1 - (J2 ^^^ S)
  let imm10 := bits (low16 w) 9 0
  let imm11 := bits (high16 w) 10 0
  sign_extend (S <<< 24 ||| I1 <<< 23 ||| I2 <<< 22 ||| imm10 <<< 12 ||| imm11 <<< 1) 25

/-- The ARM MOVW/MOVT case of get_addend. -/
def get_arm_mov (w : Nat) : Int :=
  let imm4 := bits (word32 w) 19 16
  let imm12 := bits (word32 w) 11 0
  sign_extend (imm4 <<< 12 ||| imm12) 16

/-- The Thumb MOVW/MOVT case of get_addend. -/
def get_thm_mov (w : Nat) : Int :=
  let imm4 := bits (low16 w) 3 0
  let i := bit (low16 w) 10
  let imm3 := bits (high16 w) 14 12
  let imm8 := bits (high16 w) 7 0
  sign_extend (imm4 <<< 12 ||| i <<< 11 ||| imm3 <<< 8 ||| imm8) 16

/-- get_addend(loc, rel) from src/arch-arm32.cc, on the 32-bit window w at loc. -/
def get_addend (k : Nat) (w : Nat) : Int :=
  if k = R_ARM_ABS32 ∨ k = R_ARM_REL32 ∨ k = R_ARM_BASE_PREL ∨ k = R_ARM_GOTOFF32 ∨
      k = R_ARM_GOT_PREL ∨ k = R_ARM_GOT_BREL ∨ k = R_ARM_TLS_GD32 ∨ k = R_ARM_TLS_LDM32 ∨
      k = R_ARM_TLS_LDO32 ∨ k = R_ARM_TLS_IE32 ∨ k = R_ARM_TLS_LE32 ∨
      k = R_ARM_TLS_GOTDESC ∨ k = R_ARM_TARGET1 ∨ k = R_ARM_TARGET2 then
    sign_extend (word32 w) 32
  else if k = R_ARM_THM_JUMP8 then sign_extend (low16 w) 8 * 2
  else if k = R_ARM_THM_JUMP11 then sign_extend (low16 w) 11 * 2
  else if k = R_ARM_THM_JUMP19 then get_thm_b21 w
  else if k = R_ARM_THM_CALL ∨ k = R_ARM_THM_JUMP24 ∨ k = R_ARM_THM_TLS_CALL then
    get_thm_b25 w
  else if k = R_ARM_CALL ∨ k = R_ARM_JUMP24 ∨ k = R_ARM_PLT32 ∨ k = R_ARM_TLS_CALL then
    sign_extend (word32 w) 24 * 4
  else if k = R_ARM_MOVW_PREL_NC ∨ k = R_ARM_MOVW_ABS_NC ∨ k = R_ARM_MOVT_PREL ∨
      k = R_ARM_MOVT_ABS then
    get_arm_mov w
  else if k = R_ARM_PREL31 then sign_extend (word32 w) 31
  else if k = R_ARM_THM_MOVW_PREL_NC ∨ k = R_ARM_THM_MOVW_ABS_NC ∨
      k = R_ARM_THM_MOVT_PREL ∨ k = R_ARM_THM_MOVT_ABS then
    get_thm_mov w
  else 0

/-! ### write_addend (encode) -/

/-- write_arm_mov(loc, val) from src/arch-arm32.cc. -/
def write_arm_mov (w : Nat) (val : Int) : Nat :=
  let imm12 := ibits val 11 0
  let imm4 := ibits val 15 12
  word32 w &&& 0xfff0f000 ||| imm4 <<< 16 ||| imm12

/-- write_thm_b21(loc, val) from src/arch-arm32.cc. -/
def write_thm_b21 (w : Nat) (val : Int) : Nat :=
  let S := ibit val 20
  let J2 := ibit val 19
  let J1 := ibit val 18
  let imm6 := ibits val 17 12
  let imm11 := ibits val 11 1
  combine (low16 w &&& 0b1111101111000000 ||| S <<< 10 ||| imm6)
    (high16 w &&& 0b1101000000000000 ||| J1 <<< 13 ||| J2 <<< 11 ||| imm11)

/-- write_thm_b25(loc, val) from src/arch-arm32.cc. -/
def write_thm_b25 (w : Nat) (val : Int) : Nat :=
  let S := ibit val 24
  let I1 := ibit val 23
  let I2 := ibit val 22
  let J1 := (1 - I1) ^^^ S
  let J2 := (1 - I2) ^^^ S
  let imm10 := ibits val 21 12
  let imm11 := ibits val 11 1
  combine (low16 w &&& 0b1111100000000000 ||| S <<< 10 ||| imm10)
    (high16 w &&& 0b1101000000000000 ||| J1 <<< 13 ||| J2 <<< 11 ||| imm11)

/-- write_thm_mov(loc, val) from src/arch-arm32.cc. -/
def write_thm_mov (w : Nat) (val : Int) : Nat :=
  let imm4 := ibits val 15 12
  let i := ibit val 11
  let imm3 := ibits val 10 8
  let imm8 := ibits val 7 0
  combine (low16 w &&& 0b1111101111110000 ||| i <<< 10 ||| imm4)
    (high16 w &&& 0b1000111100000000 ||| imm3 <<< 12 ||| imm8)

/-- write_addend(loc, val, rel) from src/arch-arm32.cc; returns the new word at loc.
The unreachable() default is modelled as leaving the location unchanged. -/
def write_addend (k : Nat) (val : Int) (w : Nat) : Nat :=
  if k = R_ARM_NONE then w
  else if k = R_ARM_ABS32 ∨ k = R_ARM_REL32 ∨ k = R_ARM_BASE_PREL ∨ k = R_ARM_GOTOFF32 ∨
      k = R_ARM_GOT_PREL ∨ k = R_ARM_GOT_BREL ∨ k = R_ARM_TLS_GD32 ∨ k = R_ARM_TLS_LDM32 ∨
      k = R_ARM_TLS_LDO32 ∨ k = R_ARM_TLS_IE32 ∨ k = R_ARM_TLS_LE32 ∨
      k = R_ARM_TLS_GOTDESC ∨ k = R_ARM_TARGET1 ∨ k = R_ARM_TARGET2 then
    u32 val
  else if k = R_ARM_THM_JUMP8 then
    combine (low16 w &&& 0xff00 ||| ibits val 8 1) (high16 w)
  else if k = R_ARM_THM_JUMP11 then
    combine (low16 w &&& 0xf800 ||| ibits val 11 1) (high16 w)
  else if k = R_ARM_THM_CALL ∨ k = R_ARM_THM_JUMP24 ∨ k = R_ARM_THM_TLS_CALL then
    write_thm_b25 w val
  else if k = R_ARM_CALL ∨ k = R_ARM_JUMP24 ∨ k = R_ARM_PLT32 then
    word32 w &&& 0xff000000 ||| ibits val 25 2
  else if k = R_ARM_MOVW_PREL_NC ∨ k = R_ARM_MOVW_ABS_NC ∨ k = R_ARM_MOVT_PREL ∨
      k = R_ARM_MOVT_ABS then
    write_arm_mov w val
  else if k = R_ARM_PREL31 then
    word32 w &&& 0x80000000 ||| ibits val 30 0
  else if k = R_ARM_THM_MOVW_PREL_NC ∨ k = R_ARM_THM_MOVW_ABS_NC ∨
      k = R_ARM_THM_MOVT_PREL ∨ k = R_ARM_THM_MOVT_ABS then
    write_thm_mov w val
  else
    w

/-! ### apply_reloc_alloc / apply_eh_reloc / apply_reloc_nonalloc -/

/-- Outcome of applying one relocation: the (possibly unchanged) 32-bit word now at the
fixup location, a recoverable diagnostic, or a fatal abort.  In mold, Error(ctx) reports
through the diagnostic sink and the loop continues with the next relocation, while
Fatal(ctx) stops the link at once (spec sections 5 and 7; mold.h is not under src/). -/
inductive RelResult where
  | ok (w : Nat)
  | errorCont (w : Nat)
  | fatal
  deriving DecidableEq

/-- The collaborator-supplied inputs of one apply_reloc_alloc iteration: symbol address
S, addend A, fixup address P, GOT slot byte offset G, GOT base, the symbol query flags,
the auxiliary TLS addresses, sym.get_thunk_addr(ctx, P), and the address-sorted thunk
list of the containing output section.  All of these are computed outside
src/arch-arm32.cc and are queried read-only by the backend. -/
structure RelocEnv where
  S : Nat
  A : Int
  P : Nat
  G : Nat
  GOT : Nat
  isUndefWeak : Bool
  hasTlsdesc : Bool
  hasGottp : Bool
  thunkAddr : Nat
  tlsgdAddr : Nat
  tlsldAddr : Nat
  gottpAddr : Nat
  tlsdescAddr : Nat
  tpAddr : Nat
  dtpAddr : Nat
  thunks : List Nat
  deriving DecidableEq

/-- get_reachable_thunk(osec, addr) from src/arch-arm32.cc: std::upper_bound over the
address-sorted thunk list with the comparator (addr < thunk.get_addr()), i.e. the first
thunk whose start address makes the comparator true.  The C++ code dereferences the
returned iterator; we keep the Option to expose the end() case. -/
def get_reachable_thunk (thunks : List Nat) (addr : Nat) : Option Nat :=
  thunks.find? (fun t => decide (addr < t))

/-- The lookup the claim describes, word for word: the nearest thunk whose start address
is greater than or equal to the call site address. -/
def nearest_ge_thunk (thunks : List Nat) (addr : Nat) : Option Nat :=
  thunks.find? (fun t => decide (addr ≤ t))

/-- get_tlsdesc_trampoline_addr in apply_reloc_alloc: address of the thunk found by
get_reachable_thunk (the source dereferences the iterator unconditionally; the end()
case is modelled by the default 0). -/
def get_tlsdesc_trampoline_addr (env : RelocEnv) : Nat :=
  (get_reachable_thunk env.thunks env.P).getD 0

def get_thumb_thunk_addr (env : RelocEnv) : Nat := env.thunkAddr

def get_arm_thunk_addr (env : RelocEnv) : Nat := env.thunkAddr + 4

/-- (S + A) | T on u64 operands. -/
def u64or (x : Int) (t : Nat) : Nat := toU64 x ||| t

/-- One iteration of the relocation loop of InputSection::apply_reloc_alloc for
relocation kind k against the 32-bit word w at the fixup location.  The check(...)
calls only feed the diagnostics/statistics side channel and never alter the written
bytes, so they are not modelled.  The default case is Error(ctx): a recorded,
recoverable diagnostic. -/
def apply_reloc_alloc1 (env : RelocEnv) (k : Nat) (w : Nat) : RelResult :=
  let S := env.S
  let A := env.A
  let P := env.P
  let T := env.S &&& 1
  let G := env.G
  let GOT := env.GOT
  if k = R_ARM_NONE ∨ k = R_ARM_V4BX then .ok w
  else if k = R_ARM_ABS32 ∨ k = R_ARM_TARGET1 then .ok w
  else if k = R_ARM_REL32 then .ok (u32 (S + A - P))
  else if k = R_ARM_THM_CALL then
    if env.isUndefWeak then .ok (u32 0x8000f3af)
    else
      let val1 := toI64 (S + A - P)
      let val2 := toI64 (align4_u64 (S + A - P))
      if T ≠ 0 ∧ is_int val1 25 = true then
        .ok (write_thm_b25 (combine (low16 w) (high16 w ||| 0x1000)) val1)
      else if T = 0 ∧ is_int val2 25 = true then
        .ok (write_thm_b25 (combine (low16 w) (high16 w &&& 0xefff)) val2)
      else
        .ok (write_thm_b25 (combine (low16 w) (high16 w ||| 0x1000))
          (toI64 (get_thumb_thunk_addr env + A - P)))
  else if k = R_ARM_BASE_PREL then .ok (u32 (GOT + A - P))
  else if k = R_ARM_GOTOFF32 then .ok (u32 ((u64or (S + A) T : Nat) - GOT))
  else if k = R_ARM_GOT_PREL ∨ k = R_ARM_TARGET2 then .ok (u32 (GOT + G + A - P))
  else if k = R_ARM_GOT_BREL then .ok (u32 (G + A))
  else if k = R_ARM_CALL then
    if env.isUndefWeak then .ok (u32 0xe320f000)
    else
      let is_bl := decide (word32 w &&& 0xff000000 = 0xeb000000)
      let is_blx := decide (word32 w &&& 0xfe000000 = 0xfa000000)
      if !is_bl && !is_blx then .fatal
      else
        let val := toI64 (S + A - P)
        if is_int val 26 = true then
          if T ≠ 0 then .ok (0xfa000000 ||| ibit val 1 <<< 24 ||| ibits val 25 2)
          else .ok (0xeb000000 ||| ibits val 25 2)
        else .ok (0xeb000000 ||| ibits ((get_arm_thunk_addr env : Int) + A - P) 25 2)
  else if k = R_ARM_JUMP24 then
    if env.isUndefWeak then .ok (u32 0xe320f000)
    else
      let val := toI64 (S + A - P)
      let val := if T ≠ 0 ∨ is_int val 26 = false then
        toI64 (get_arm_thunk_addr env + A - P) else val
      .ok (word32 w &&& 0xff000000 ||| ibits val 25 2)
  else if k = R_ARM_PLT32 then
    if env.isUndefWeak then .ok (u32 0xe320f000)
    else
      let val := (if T ≠ 0 then (get_arm_thunk_addr env : Int) else (S : Int)) + A - P
      .ok (word32 w &&& 0xff000000 ||| ibits val 25 2)
  else if k = R_ARM_THM_JUMP8 then
    .ok (combine (low16 w &&& 0xff00 ||| ibits (S + A - P) 8 1) (high16 w))
  else if k = R_ARM_THM_JUMP11 then
    .ok (combine (low16 w &&& 0xf800 ||| ibits (S + A - P) 11 1) (high16 w))
  else if k = R_ARM_THM_JUMP19 then .ok (write_thm_b21 w (S + A - P))
  else if k = R_ARM_THM_JUMP24 then
    if env.isUndefWeak then .ok (u32 0x8000f3af)
    else
      let val := toI64 (S + A - P)
      let val := if T = 0 ∨ is_int val 25 = false then
        toI64 (get_thumb_thunk_addr env + A - P) else val
      .ok (write_thm_b25 w val)
  else if k = R_ARM_MOVW_PREL_NC then .ok (write_arm_mov w ((u64or (S + A) T : Nat) - P))
  else if k = R_ARM_MOVW_ABS_NC then .ok (write_arm_mov w ((u64or (S + A) T : Nat) : Int))
  else if k = R_ARM_THM_MOVW_PREL_NC then .ok (write_thm_mov w ((u64or (S + A) T : Nat) - P))
  else if k = R_ARM_PREL31 then .ok (word32 w &&& 0x80000000 ||| ibits (S + A - P) 30 0)
  else if k = R_ARM_THM_MOVW_ABS_NC then .ok (write_thm_mov w ((u64or (S + A) T : Nat) : Int))
  else if k = R_ARM_MOVT_PREL then .ok (write_arm_mov w ((toU64 (S + A - P) >>> 16 : Nat) : Int))
  else if k = R_ARM_THM_MOVT_PREL then .ok (write_thm_mov w ((toU64 (S + A - P) >>> 16 : Nat) : Int))
  else if k = R_ARM_MOVT_ABS then .ok (write_arm_mov w ((toU64 (S + A) >>> 16 : Nat) : Int))
  else if k = R_ARM_THM_MOVT_ABS then .ok (write_thm_mov w ((toU64 (S + A) >>> 16 : Nat) : Int))
  else if k = R_ARM_TLS_GD32 then .ok (u32 (env.tlsgdAddr + A - P))
  else if k = R_ARM_TLS_LDM32 then .ok (u32 (env.tlsldAddr + A - P))
  else if k = R_ARM_TLS_LDO32 then .ok (u32 (S + A - env.dtpAddr))
  else if k = R_ARM_TLS_IE32 then .ok (u32 (env.gottpAddr + A - P))
  else if k = R_ARM_TLS_LE32 then .ok (u32 (S + A - env.tpAddr))
  else if k = R_ARM_TLS_GOTDESC then
    if env.hasTlsdesc then
      .ok (u32 ((env.tlsdescAddr : Int) - P + A - (if toU64 A &&& 1 ≠ 0 then 6 else 4)))
    else if env.hasGottp then
      .ok (u32 ((env.gottpAddr : Int) - P + A - (if toU64 A &&& 1 ≠ 0 then 5 else 8)))
    else .ok (u32 ((S : Int) - env.tpAddr))
  else if k = R_ARM_TLS_CALL then
    if env.hasTlsdesc then
      .ok (0xeb000000 ||| ibits ((get_tlsdesc_trampoline_addr env : Int) - P - 8) 25 2)
    else if env.hasGottp then .ok (u32 0xe79f0000)
    else .ok (u32 0xe320f000)
  else if k = R_ARM_THM_TLS_CALL then
    if env.hasTlsdesc then
      let val := align4_u64 ((get_tlsdesc_trampoline_addr env : Int) - P - 4)
      let w1 := write_thm_b25 w val
      .ok (combine (low16 w1) (high16 w1 &&& 0xefff))
    else if env.hasGottp then .ok (combine 0x4478 0x6800)
    else .ok (u32 0x8000f3af)
  else .errorCont w

/-- The relocation loop of InputSection::apply_reloc_alloc over a list of
(environment, kind, word) triples: a Fatal diagnostic aborts the whole pass, every
other outcome lets the loop continue with the remaining relocations. -/
def apply_reloc_alloc_seq : List (RelocEnv × Nat × Nat) → List RelResult
  | [] => []
  | (env, k, w) :: rest =>
    match apply_reloc_alloc1 env k w with
    | .fatal => [.fatal]
    | r => r :: apply_reloc_alloc_seq rest

/-- EhFrameSection::apply_eh_reloc from src/arch-arm32.cc, for relocation kind k
against the word w at offset within .eh_frame; shAddr is the section address and val
the resolved value passed in by the generic .eh_frame writer. -/
def apply_eh_reloc (shAddr offset val : Nat) (k : Nat) (w : Nat) : RelResult :=
  if k = R_ARM_NONE then .ok w
  else if k = R_ARM_ABS32 then .ok (u32 val)
  else if k = R_ARM_REL32 then .ok (u32 ((val : Int) - shAddr - offset))
  else .fatal

/-- Collaborator inputs of one apply_reloc_nonalloc iteration.  S and A already
incorporate the section-fragment case (frag ? ... : ...); tombstone is the result of
get_tombstone(sym, frag); skipUndef is record_undef_error(ctx, rel). -/
structure NonallocEnv where
  S : Nat
  A : Int
  tombstone : Option Nat
  dtpAddr : Nat
  skipUndef : Bool
  deriving DecidableEq

/-- One iteration of the loop of InputSection::apply_reloc_nonalloc. -/
def apply_reloc_nonalloc1 (env : NonallocEnv) (k : Nat) (w : Nat) : RelResult :=
  if k = R_ARM_NONE ∨ env.skipUndef then .ok w
  else if k = R_ARM_ABS32 then
    .ok (match env.tombstone with
      | some v => u32 (v : Int)
      | none => u32 (env.S + env.A))
  else if k = R_ARM_TLS_LDO32 then
    .ok (match env.tombstone with
      | some v => u32 (v : Int)
      | none => u32 (env.S + env.A - env.dtpAddr))
  else .fatal

/-- The relocation kinds carrying a case label in apply_reloc_alloc (including the two
skipped kinds R_NONE and R_ARM_V4BX); every other kind reaches the default case. -/
def alloc_handled (k : Nat) : Bool :=
  decide (k ∈ [R_ARM_NONE, R_ARM_V4BX, R_ARM_ABS32, R_ARM_TARGET1, R_ARM_REL32,
    R_ARM_THM_CALL, R_ARM_BASE_PREL, R_ARM_GOTOFF32, R_ARM_GOT_PREL, R_ARM_TARGET2,
    R_ARM_GOT_BREL, R_ARM_CALL, R_ARM_JUMP24, R_ARM_PLT32, R_ARM_THM_JUMP8,
    R_ARM_THM_JUMP11, R_ARM_THM_JUMP19, R_ARM_THM_JUMP24, R_ARM_MOVW_PREL_NC,
    R_ARM_MOVW_ABS_NC, R_ARM_THM_MOVW_PREL_NC, R_ARM_PREL31, R_ARM_THM_MOVW_ABS_NC,
    R_ARM_MOVT_PREL, R_ARM_THM_MOVT_PREL, R_ARM_MOVT_ABS, R_ARM_THM_MOVT_ABS,
    R_ARM_TLS_GD32, R_ARM_TLS_LDM32, R_ARM_TLS_LDO32, R_ARM_TLS_IE32, R_ARM_TLS_LE32,
    R_ARM_TLS_GOTDESC, R_ARM_TLS_CALL, R_ARM_THM_TLS_CALL])

/-- The relocation kinds carrying a case label in apply_eh_reloc. -/
def eh_handled (k : Nat) : Bool :=
  decide (k ∈ [R_ARM_NONE, R_ARM_ABS32, R_ARM_REL32])

/-! ### Arm32ExidxSection::get_contents -/

/-- An 8-byte .ARM.exidx record: a 31-bit self-relative start address and a 32-bit
value, both read/written through ul32 fields. -/
structure ExEntry where
  addr : Nat
  val : Nat
  deriving DecidableEq

def CANTUNWIND : Nat := 1

/-- is_relative(val) from get_contents: neither CANTUNWIND nor a compact inline
encoding (top bit set). -/
def exidx_is_relative (v : Nat) : Bool := decide (v ≠ CANTUNWIND ∧ v &&& 0x80000000 = 0)

/-- Normalisation of entry number i (byte offset 8 i): make the address and, for
pointer-form values, the value relative to the start of the section. -/
def normEntry (i : Nat) (e : ExEntry) : ExEntry :=
  { addr := u32 (sign_extend e.addr 31 + 8 * i),
    val := if exidx_is_relative e.val then (e.val + 8 * i) &&& 0x7fffffff else e.val }

def normFrom (i : Nat) : List ExEntry → List ExEntry
  | [] => []
  | e :: es => normEntry i e :: normFrom (i + 1) es

/-- The inverse pass at the end of get_contents: make the surviving entries
self-relative again. -/
def rerelEntry (i : Nat) (e : ExEntry) : ExEntry :=
  { addr := ibits ((e.addr : Int) - 8 * i) 30 0,
    val := if exidx_is_relative e.val then ibits ((e.val : Int) - 8 * i) 30 0 else e.val }

def rerelFrom (i : Nat) : List ExEntry → List ExEntry
  | [] => []
  | e :: es => rerelEntry i e :: rerelFrom (i + 1) es

/-- The sentinel slot appended after the n input records: its stored address field is
get_text_end(ctx) - sentinel_addr (an ul32 store) and its value CANTUNWIND. -/
def exidx_sentinel (shAddr textEnd n : Nat) : ExEntry :=
  { addr := u32 ((textEnd : Int) - ((shAddr : Int) + 8 * n)), val := CANTUNWIND }

/-- std::unique with the value-equality predicate: keep an entry only when its value
differs from the last kept entry's value. -/
def uniqAdjFrom (last : ExEntry) : List ExEntry → List ExEntry
  | [] => []
  | e :: es => if e.val = last.val then uniqAdjFrom last es else e :: uniqAdjFrom e es

def uniqAdj : List ExEntry → List ExEntry
  | [] => []
  | e :: es => e :: uniqAdjFrom e es

/-- The comparator of the std::sort call, as a relation: sorted output satisfies
(not (b.addr < a.addr)), i.e. a.addr ≤ b.addr, between consecutive entries. -/
def exLE (a b : ExEntry) : Prop := a.addr ≤ b.addr

instance : DecidableRel exLE := fun a b => Nat.decLe a.addr b.addr

instance : IsTotal ExEntry exLE := ⟨fun a b => Nat.le_total a.addr b.addr⟩

instance : IsTrans ExEntry exLE := ⟨fun _ _ _ h h2 => Nat.le_trans h h2⟩

/-- Arm32ExidxSection::get_contents: append the sentinel slot, translate every entry to
section-relative form, sort by address, drop adjacent entries with equal values, and
translate back to self-relative form.  std::sort is modelled by a sorting function; the
source's comparator makes ties between equal addresses unspecified, and the model picks
the stable order. -/
def exidx_get_contents (input : List ExEntry) (shAddr textEnd : Nat) : List ExEntry :=
  let withSent := input ++ [exidx_sentinel shAddr textEnd input.length]
  let normed := normFrom 0 withSent
  let sorted := List.insertionSort exLE normed
  rerelFrom 0 (uniqAdj sorted)

/-- The absolute (de-relativised) start address encoded by output entry number i,
relative to the section start: the stored field read back as a signed 31-bit offset
plus the entry's own byte offset. -/
def derelAddr (i : Nat) (e : ExEntry) : Int := sign_extend e.addr 31 + 8 * i

/-- Strict ascent of the de-relativised start addresses of a table whose first entry
sits at byte offset 8 i. -/
def strictAscFrom (i : Nat) : List ExEntry → Bool
  | [] => true
  | [_] => true
  | a :: b :: rest =>
    decide (derelAddr i a < derelAddr (i + 1) b) && strictAscFrom (i + 1) (b :: rest)

/-- No two adjacent entries of the table have equal value fields. -/
def adjValsDiffer : List ExEntry → Bool
  | [] => true
  | [_] => true
  | a :: b :: rest => decide (a.val ≠ b.val) && adjValsDiffer (b :: rest)

/-- Claim C2 as stated, as a checkable predicate on the buffer returned by
get_contents: entries strictly ascending by absolute (de-relativised) start address, no
two adjacent entries with equal value fields, and a last entry that is a CANTUNWIND
sentinel whose de-relativised address is the end of all executable code. -/
def exidx_claim_check (input : List ExEntry) (shAddr textEnd : Nat) : Bool :=
  let out := exidx_get_contents input shAddr textEnd
  strictAscFrom 0 out && adjValsDiffer out &&
    (match out.getLast? with
     | some e => decide (e.val = CANTUNWIND) ∧
         decide ((shAddr : Int) + derelAddr (out.length - 1) e = (textEnd : Int))
     | none => False)

/-! ### Bit-manipulation toolkit -/

theorem fld_lor (a b lo k : Nat) :
    (a ||| b) >>> lo % 2 ^ k = (a >>> lo % 2 ^ k) ||| (b >>> lo % 2 ^ k) := by
  apply Nat.eq_of_testBit_eq
  intro i
  simp only [Nat.testBit_mod_two_pow, Nat.testBit_shiftRight, Nat.testBit_or]
  by_cases h : i < k <;> simp [h]

theorem fld_land (a b lo k : Nat) :
    (a &&& b) >>> lo % 2 ^ k = (a >>> lo % 2 ^ k) &&& (b >>> lo % 2 ^ k) := by
  apply Nat.eq_of_testBit_eq
  intro i
  simp only [Nat.testBit_mod_two_pow, Nat.testBit_shiftRight, Nat.testBit_and]
  by_cases h : i < k <;> simp [h]

theorem fld_shl_low (a : Nat) {s lo : Nat} (k : Nat) (h : s ≤ lo) :
    (a <<< s) >>> lo % 2 ^ k = a >>> (lo - s) % 2 ^ k := by
  apply Nat.eq_of_testBit_eq
  intro i
  simp only [Nat.testBit_mod_two_pow, Nat.testBit_shiftRight, Nat.testBit_shiftLeft]
  have h1 : s ≤ lo + i := Nat.le_trans h (Nat.le_add_right _ _)
  have h2 : lo + i - s = lo - s + i := by omega
  simp [h1, h2]

theorem fld_shl_high (a : Nat) {s lo k : Nat} (h : lo + k ≤ s) :
    (a <<< s) >>> lo % 2 ^ k = 0 := by
  apply Nat.eq_of_testBit_eq
  intro i
  simp only [Nat.testBit_mod_two_pow, Nat.testBit_shiftRight, Nat.testBit_shiftLeft,
    Nat.zero_testBit]
  by_cases hk : i < k
  · have : ¬ s ≤ lo + i := by omega
    simp [this]
  · simp [hk]

theorem shr_eq_zero {a lo : Nat} (h : a < 2 ^ lo) : a >>> lo = 0 := by
  rw [Nat.shiftRight_eq_div_pow]
  exact Nat.div_eq_of_lt h

theorem mod_lor (a b k : Nat) : (a ||| b) % 2 ^ k = a % 2 ^ k ||| b % 2 ^ k := by
  have := fld_lor a b 0 k
  simpa using this

theorem mod_land (a b k : Nat) : (a &&& b) % 2 ^ k = a % 2 ^ k &&& b % 2 ^ k := by
  have := fld_land a b 0 k
  simpa using this

theorem mod_shl_high (a : Nat) {s k : Nat} (h : k ≤ s) : (a <<< s) % 2 ^ k = 0 := by
  have := @fld_shl_high a s 0 k (by omega)
  simpa using this

theorem lor_eq_add {a b : Nat} (k : Nat) (h1 : a % 2 ^ k = 0) (h2 : b < 2 ^ k) :
    a ||| b = a + b := by
  obtain ⟨q, rfl⟩ : ∃ q, a = 2 ^ k * q :=
    ⟨a / 2 ^ k, (Nat.mul_div_cancel' (Nat.dvd_of_mod_eq_zero h1)).symm⟩
  apply Nat.eq_of_testBit_eq
  intro i
  rw [Nat.testBit_mul_pow_two_add q h2 i]
  simp only [Nat.testBit_or]
  by_cases hik : i < k
  · have hz : (2 ^ k * q).testBit i = false := by
      have hm := Nat.testBit_mod_two_pow (2 ^ k * q) k i
      rw [h1] at hm
      simp only [Nat.zero_testBit] at hm
      simpa [hik] using hm.symm
    simp [hik, hz]
  · have hki : k ≤ i := Nat.le_of_not_lt hik
    have hb : b.testBit i = false :=
      Nat.testBit_lt_two_pow (Nat.lt_of_lt_of_le h2 (Nat.pow_le_pow_right (by omega) hki))
    have hq : (2 ^ k * q).testBit i = q.testBit (i - k) := by
      have hl : 2 ^ k * q = q <<< k := by rw [Nat.shiftLeft_eq, Nat.mul_comm]
      rw [hl, Nat.testBit_shiftLeft]
      simp [hki]
    simp [hik, hb, hq]

theorem bits_lt (v hi lo : Nat) : bits v hi lo < 2 ^ (hi - lo + 1) :=
  Nat.mod_lt _ (Nat.pos_pow_of_pos _ (by omega))

theorem bit_lt (v n : Nat) : bit v n < 2 := by
  have := bits_lt v n n
  simpa using this

theorem ibits_lt (v : Int) (hi lo : Nat) : ibits v hi lo < 2 ^ (hi - lo + 1) :=
  bits_lt _ _ _

theorem ibit_lt (v : Int) (n : Nat) : ibit v n < 2 := bit_lt _ _

theorem xor2_lt {x y : Nat} (hx : x < 2) (hy : y < 2) : x ^^^ y < 2 := by
  interval_cases x <;> interval_cases y <;> decide

theorem toU64_cast (v : Int) : ((toU64 v : Nat) : Int) = v % (2 ^ 64 : Int) :=
  Int.toNat_of_nonneg (Int.emod_nonneg _ (by norm_num))

theorem u32_cast (v : Int) : ((u32 v : Nat) : Int) = v % (2 ^ 32 : Int) :=
  Int.toNat_of_nonneg (Int.emod_nonneg _ (by norm_num))

theorem u32_lt (v : Int) : u32 v < 2 ^ 32 := by
  have h := u32_cast v
  have h2 : v % (2 ^ 32 : Int) < 2 ^ 32 := Int.emod_lt_of_pos _ (by norm_num)
  omega

theorem low16_lt (w : Nat) : low16 w < 2 ^ 16 := Nat.mod_lt _ (by norm_num)

theorem high16_lt (w : Nat) : high16 w < 2 ^ 16 := Nat.mod_lt _ (by norm_num)

theorem low16_combine {a : Nat} (b : Nat) (h : a < 2 ^ 16) : low16 (combine a b) = a := by
  unfold low16 combine
  omega

theorem high16_combine (a : Nat) {b : Nat} (h : b < 2 ^ 16) : high16 (combine a b) = b := by
  unfold high16 combine
  rw [Nat.shiftRight_eq_div_pow]
  omega

theorem high16_combine_mod (a b : Nat) : high16 (combine a b) = b % 2 ^ 16 := by
  unfold high16 combine
  rw [Nat.shiftRight_eq_div_pow]
  omega

theorem and_lt_16 (a : Nat) {m : Nat} (h : m < 2 ^ 16) : a &&& m < 2 ^ 16 :=
  Nat.and_lt_two_pow a h

theorem or_lt_16 {a b : Nat} (ha : a < 2 ^ 16) (hb : b < 2 ^ 16) : a ||| b < 2 ^ 16 :=
  Nat.or_lt_two_pow ha hb

theorem shl_bit_lt_16 {a : Nat} (s : Nat) (h : a < 2) (hs : s ≤ 15) : a <<< s < 2 ^ 16 := by
  rw [Nat.shiftLeft_eq]
  calc a * 2 ^ s ≤ 1 * 2 ^ 15 := by
        apply Nat.mul_le_mul (by omega) (Nat.pow_le_pow_right (by omega) hs)
    _ < 2 ^ 16 := by norm_num

/-! ### Field extraction lemmas for the encoded half-words -/

theorem thm_b25_lo_S (lw S m10 : Nat) (hS : S < 2) (h10 : m10 < 2 ^ 10) :
    bit (lw &&& 0b1111100000000000 ||| S <<< 10 ||| m10) 10 = S := by
  unfold bit bits
  rw [fld_lor, fld_lor, fld_land, fld_shl_low S _ (by omega), shr_eq_zero h10]
  simp [Nat.mod_eq_of_lt hS]

theorem thm_b25_lo_imm10 (lw S m10 : Nat) (h10 : m10 < 2 ^ 10) :
    bits (lw &&& 0b1111100000000000 ||| S <<< 10 ||| m10) 9 0 = m10 := by
  unfold bits
  rw [fld_lor, fld_lor, fld_land]
  rw [@fld_shl_high S 10 0 (9 - 0 + 1) (by omega)]
  have h10b : m10 < 1024 := h10
  simp [Nat.mod_eq_of_lt h10b]

theorem thm_b_hi_J1 (hw J1 J2 m11 : Nat) (hJ1 : J1 < 2) (hJ2 : J2 < 2) (h11 : m11 < 2 ^ 11) :
    bit (hw &&& 0b1101000000000000 ||| J1 <<< 13 ||| J2 <<< 11 ||| m11) 13 = J1 := by
  unfold bit bits
  rw [fld_lor, fld_lor, fld_lor, fld_land, fld_shl_low J1 _ (by omega),
    fld_shl_low J2 _ (by omega), shr_eq_zero (show J2 < 2 ^ (13 - 11) by omega),
    shr_eq_zero (show m11 < 2 ^ 13 by omega)]
  simp [Nat.mod_eq_of_lt hJ1]

theorem thm_b_hi_J2 (hw J1 J2 m11 : Nat) (hJ2 : J2 < 2) (h11 : m11 < 2 ^ 11) :
    bit (hw &&& 0b1101000000000000 ||| J1 <<< 13 ||| J2 <<< 11 ||| m11) 11 = J2 := by
  unfold bit bits
  rw [fld_lor, fld_lor, fld_lor, fld_land, @fld_shl_high J1 13 11 (11 - 11 + 1) (by omega),
    fld_shl_low J2 _ (by omega), shr_eq_zero (show m11 < 2 ^ 11 by omega)]
  simp [Nat.mod_eq_of_lt hJ2]

theorem thm_b_hi_imm11 (hw J1 J2 m11 : Nat) (h11 : m11 < 2 ^ 11) :
    bits (hw &&& 0b1101000000000000 ||| J1 <<< 13 ||| J2 <<< 11 ||| m11) 10 0 = m11 := by
  unfold bits
  rw [fld_lor, fld_lor, fld_lor, fld_land, @fld_shl_high J1 13 0 (10 - 0 + 1) (by omega),
    @fld_shl_high J2 11 0 (10 - 0 + 1) (by omega)]
  have h11b : m11 < 2048 := h11
  simp [Nat.mod_eq_of_lt h11b]

/-- The inner xor dance of the J1/J2 encoding is involutive on the I bits. -/
theorem xor_decode (x y : Nat) (hx : x < 2) (hy : y < 2) :
    1 - (((1 - x) ^^^ y) ^^^ y) = x := by
  interval_cases x <;> interval_cases y <;> decide

/-! ### Disjoint or-chains as sums -/

theorem val25_sum (S I1 I2 m10 m11 : Nat) (hS : S < 2) (hI1 : I1 < 2) (hI2 : I2 < 2)
    (h10 : m10 < 2 ^ 10) (h11 : m11 < 2 ^ 11) :
    S <<< 24 ||| I1 <<< 23 ||| I2 <<< 22 ||| m10 <<< 12 ||| m11 <<< 1 =
      S * 2 ^ 24 + I1 * 2 ^ 23 + I2 * 2 ^ 22 + m10 * 2 ^ 12 + m11 * 2 := by
  have e1 : (S <<< 24 ||| I1 <<< 23 ||| I2 <<< 22 ||| m10 <<< 12) % 2 ^ 12 = 0 := by
    rw [mod_lor, mod_lor, mod_lor, mod_shl_high S (by omega), mod_shl_high I1 (by omega),
      mod_shl_high I2 (by omega), mod_shl_high m10 (by omega)]
    simp
  have e2 : (S <<< 24 ||| I1 <<< 23 ||| I2 <<< 22) % 2 ^ 22 = 0 := by
    rw [mod_lor, mod_lor, mod_shl_high S (by omega), mod_shl_high I1 (by omega),
      mod_shl_high I2 (by omega)]
    simp
  have e3 : (S <<< 24 ||| I1 <<< 23) % 2 ^ 23 = 0 := by
    rw [mod_lor, mod_shl_high S (by omega), mod_shl_high I1 (by omega)]
    simp
  rw [lor_eq_add 12 e1 (by rw [Nat.shiftLeft_eq]; omega),
    lor_eq_add 22 e2 (by rw [Nat.shiftLeft_eq]; omega),
    lor_eq_add 23 e3 (by rw [Nat.shiftLeft_eq]; omega),
    lor_eq_add 24 (by rw [mod_shl_high S (by omega)]) (by rw [Nat.shiftLeft_eq]; omega)]
  simp only [Nat.shiftLeft_eq]

/-- Decoding the b25 form written over arbitrary preserved half-word bits recovers the
reassembled immediate. -/
theorem get_thm_b25_combine (lw hw S I1 I2 m10 m11 : Nat) (hS : S < 2) (hI1 : I1 < 2)
    (hI2 : I2 < 2) (h10 : m10 < 2 ^ 10) (h11 : m11 < 2 ^ 11) :
    get_thm_b25 (combine (lw &&& 0b1111100000000000 ||| S <<< 10 ||| m10)
        (hw &&& 0b1101000000000000 ||| ((1 - I1) ^^^ S) <<< 13 |||
          ((1 - I2) ^^^ S) <<< 11 ||| m11)) =
      sign_extend (S <<< 24 ||| I1 <<< 23 ||| I2 <<< 22 ||| m10 <<< 12 ||| m11 <<< 1) 25 := by
  have hJ1 : (1 - I1) ^^^ S < 2 := xor2_lt (by omega) hS
  have hJ2 : (1 - I2) ^^^ S < 2 := xor2_lt (by omega) hS
  have hL : lw &&& 0b1111100000000000 ||| S <<< 10 ||| m10 < 2 ^ 16 :=
    or_lt_16 (or_lt_16 (and_lt_16 lw (by norm_num)) (shl_bit_lt_16 10 hS (by omega)))
      (by omega)
  have hH : hw &&& 0b1101000000000000 ||| ((1 - I1) ^^^ S) <<< 13 |||
      ((1 - I2) ^^^ S) <<< 11 ||| m11 < 2 ^ 16 :=
    or_lt_16 (or_lt_16 (or_lt_16 (and_lt_16 hw (by norm_num))
      (shl_bit_lt_16 13 hJ1 (by omega))) (shl_bit_lt_16 11 hJ2 (by omega))) (by omega)
  unfold get_thm_b25
  dsimp only
  rw [low16_combine _ hL, high16_combine _ hH]
  rw [thm_b25_lo_S lw S m10 hS h10, thm_b25_lo_imm10 lw S m10 h10,
    thm_b_hi_J1 hw _ _ m11 hJ1 hJ2 h11, thm_b_hi_J2 hw _ _ m11 hJ2 h11,
    thm_b_hi_imm11 hw _ _ m11 h11]
  rw [xor_decode I1 S hI1 hS, xor_decode I2 S hI2 hS]

set_option maxHeartbeats 1000000 in
/-- get_addend recovers write_thm_b25's value up to the dropped bit 0 for any
in-range value and any prior contents of the location. -/
theorem get_write_thm_b25 (w : Nat) (v : Int) (h1 : -(2 ^ 24) ≤ v) (h2 : v < 2 ^ 24) :
    get_thm_b25 (write_thm_b25 w v) = v - v % 2 := by
  unfold write_thm_b25
  dsimp only
  rw [get_thm_b25_combine (low16 w) (high16 w) (ibit v 24) (ibit v 23) (ibit v 22)
    (ibits v 21 12) (ibits v 11 1) (ibit_lt v 24) (ibit_lt v 23) (ibit_lt v 22)
    (ibits_lt v 21 12) (ibits_lt v 11 1)]
  rw [val25_sum _ _ _ _ _ (ibit_lt v 24) (ibit_lt v 23) (ibit_lt v 22)
    (ibits_lt v 21 12) (ibits_lt v 11 1)]
  have hm := toU64_cast v
  unfold ibit ibits bit bits sign_extend
  simp only [Nat.shiftRight_eq_div_pow]
  norm_num
  split <;> omega

attribute [simp] R_ARM_NONE R_ARM_ABS32 R_ARM_REL32 R_ARM_THM_CALL R_ARM_GOTOFF32
  R_ARM_BASE_PREL R_ARM_GOT_BREL R_ARM_PLT32 R_ARM_CALL R_ARM_JUMP24 R_ARM_THM_JUMP24
  R_ARM_TARGET1 R_ARM_V4BX R_ARM_TARGET2 R_ARM_PREL31 R_ARM_MOVW_ABS_NC R_ARM_MOVT_ABS
  R_ARM_MOVW_PREL_NC R_ARM_MOVT_PREL R_ARM_THM_MOVW_ABS_NC R_ARM_THM_MOVT_ABS
  R_ARM_THM_MOVW_PREL_NC R_ARM_THM_MOVT_PREL R_ARM_THM_JUMP19 R_ARM_TLS_GOTDESC
  R_ARM_TLS_CALL R_ARM_THM_TLS_CALL R_ARM_GOT_PREL R_ARM_THM_JUMP11 R_ARM_THM_JUMP8
  R_ARM_TLS_GD32 R_ARM_TLS_LDM32 R_ARM_TLS_LDO32 R_ARM_TLS_IE32 R_ARM_TLS_LE32

theorem word32_of_lt {x : Nat} (h : x < 2 ^ 32) : word32 x = x := Nat.mod_eq_of_lt h

theorem sign_extend_congr {a b : Nat} (n : Nat) (h : a % 2 ^ n = b % 2 ^ n) :
    sign_extend a n = sign_extend b n := by
  unfold sign_extend
  rw [h]

/-! ### Round trips for the b21 (THM_JUMP19) family -/

theorem thm_b21_lo_S (lw S m6 : Nat) (hS : S < 2) (h6 : m6 < 2 ^ 6) :
    bit (lw &&& 0b1111101111000000 ||| S <<< 10 ||| m6) 10 = S := by
  unfold bit bits
  rw [fld_lor, fld_lor, fld_land, fld_shl_low S _ (by omega),
    shr_eq_zero (show m6 < 2 ^ 10 by omega)]
  simp [Nat.mod_eq_of_lt hS]

theorem thm_b21_lo_imm6 (lw S m6 : Nat) (h6 : m6 < 2 ^ 6) :
    bits (lw &&& 0b1111101111000000 ||| S <<< 10 ||| m6) 5 0 = m6 := by
  unfold bits
  rw [fld_lor, fld_lor, fld_land, @fld_shl_high S 10 0 (5 - 0 + 1) (by omega)]
  have h6b : m6 < 64 := h6
  simp [Nat.mod_eq_of_lt h6b]

theorem val21_sum (S J2 J1 m6 m11 : Nat) (hS : S < 2) (hJ2 : J2 < 2) (hJ1 : J1 < 2)
    (h6 : m6 < 2 ^ 6) (h11 : m11 < 2 ^ 11) :
    S <<< 20 ||| J2 <<< 19 ||| J1 <<< 18 ||| m6 <<< 12 ||| m11 <<< 1 =
      S * 2 ^ 20 + J2 * 2 ^ 19 + J1 * 2 ^ 18 + m6 * 2 ^ 12 + m11 * 2 := by
  have e1 : (S <<< 20 ||| J2 <<< 19 ||| J1 <<< 18 ||| m6 <<< 12) % 2 ^ 12 = 0 := by
    rw [mod_lor, mod_lor, mod_lor, mod_shl_high S (by omega), mod_shl_high J2 (by omega),
      mod_shl_high J1 (by omega), mod_shl_high m6 (by omega)]
    simp
  have e2 : (S <<< 20 ||| J2 <<< 19 ||| J1 <<< 18) % 2 ^ 18 = 0 := by
    rw [mod_lor, mod_lor, mod_shl_high S (by omega), mod_shl_high J2 (by omega),
      mod_shl_high J1 (by omega)]
    simp
  have e3 : (S <<< 20 ||| J2 <<< 19) % 2 ^ 19 = 0 := by
    rw [mod_lor, mod_shl_high S (by omega), mod_shl_high J2 (by omega)]
    simp
  rw [lor_eq_add 12 e1 (by rw [Nat.shiftLeft_eq]; omega),
    lor_eq_add 18 e2 (by rw [Nat.shiftLeft_eq]; omega),
    lor_eq_add 19 e3 (by rw [Nat.shiftLeft_eq]; omega),
    lor_eq_add 20 (by rw [mod_shl_high S (by omega)]) (by rw [Nat.shiftLeft_eq]; omega)]
  simp only [Nat.shiftLeft_eq]

theorem get_thm_b21_combine (lw hw S J2 J1 m6 m11 : Nat) (hS : S < 2) (hJ2 : J2 < 2)
    (hJ1 : J1 < 2) (h6 : m6 < 2 ^ 6) (h11 : m11 < 2 ^ 11) :
    get_thm_b21 (combine (lw &&& 0b1111101111000000 ||| S <<< 10 ||| m6)
        (hw &&& 0b1101000000000000 ||| J1 <<< 13 ||| J2 <<< 11 ||| m11)) =
      sign_extend (S <<< 20 ||| J2 <<< 19 ||| J1 <<< 18 ||| m6 <<< 12 ||| m11 <<< 1) 21 := by
  have hL : lw &&& 0b1111101111000000 ||| S <<< 10 ||| m6 < 2 ^ 16 :=
    or_lt_16 (or_lt_16 (and_lt_16 lw (by norm_num)) (shl_bit_lt_16 10 hS (by omega)))
      (by omega)
  have hH : hw &&& 0b1101000000000000 ||| J1 <<< 13 ||| J2 <<< 11 ||| m11 < 2 ^ 16 :=
    or_lt_16 (or_lt_16 (or_lt_16 (and_lt_16 hw (by norm_num))
      (shl_bit_lt_16 13 hJ1 (by omega))) (shl_bit_lt_16 11 hJ2 (by omega))) (by omega)
  unfold get_thm_b21
  dsimp only
  rw [low16_combine _ hL, high16_combine _ hH]
  rw [thm_b21_lo_S lw S m6 hS h6, thm_b21_lo_imm6 lw S m6 h6,
    thm_b_hi_J1 hw _ _ m11 hJ1 hJ2 h11, thm_b_hi_J2 hw _ _ m11 hJ2 h11,
    thm_b_hi_imm11 hw _ _ m11 h11]

set_option maxHeartbeats 1000000 in
/-- get_addend recovers write_thm_b21's value up to the dropped bit 0. -/
theorem get_write_thm_b21 (w : Nat) (v : Int) (h1 : -(2 ^ 20) ≤ v) (h2 : v < 2 ^ 20) :
    get_thm_b21 (write_thm_b21 w v) = v - v % 2 := by
  unfold write_thm_b21
  dsimp only
  rw [get_thm_b21_combine (low16 w) (high16 w) (ibit v 20) (ibit v 19) (ibit v 18)
    (ibits v 17 12) (ibits v 11 1) (ibit_lt v 20) (ibit_lt v 19) (ibit_lt v 18)
    (ibits_lt v 17 12) (ibits_lt v 11 1)]
  rw [val21_sum _ _ _ _ _ (ibit_lt v 20) (ibit_lt v 19) (ibit_lt v 18)
    (ibits_lt v 17 12) (ibits_lt v 11 1)]
  have hm := toU64_cast v
  unfold ibit ibits bit bits sign_extend
  simp only [Nat.shiftRight_eq_div_pow]
  norm_num
  split <;> omega

/-! ### Round trips for the Thumb MOVW/MOVT family -/

theorem thm_mov_lo_i (lw i m4 : Nat) (hi : i < 2) (h4 : m4 < 2 ^ 4) :
    bit (lw &&& 0b1111101111110000 ||| i <<< 10 ||| m4) 10 = i := by
  unfold bit bits
  rw [fld_lor, fld_lor, fld_land, fld_shl_low i _ (by omega),
    shr_eq_zero (show m4 < 2 ^ 10 by omega)]
  simp [Nat.mod_eq_of_lt hi]

theorem thm_mov_lo_imm4 (lw i m4 : Nat) (h4 : m4 < 2 ^ 4) :
    bits (lw &&& 0b1111101111110000 ||| i <<< 10 ||| m4) 3 0 = m4 := by
  unfold bits
  rw [fld_lor, fld_lor, fld_land, @fld_shl_high i 10 0 (3 - 0 + 1) (by omega)]
  have h4b : m4 < 16 := h4
  simp [Nat.mod_eq_of_lt h4b]

theorem thm_mov_hi_imm3 (hw m3 m8 : Nat) (h3 : m3 < 2 ^ 3) (h8 : m8 < 2 ^ 8) :
    bits (hw &&& 0b1000111100000000 ||| m3 <<< 12 ||| m8) 14 12 = m3 := by
  unfold bits
  rw [fld_lor, fld_lor, fld_land, fld_shl_low m3 _ (by omega),
    shr_eq_zero (show m8 < 2 ^ 12 by omega)]
  have h3b : m3 < 8 := h3
  simp [Nat.mod_eq_of_lt h3b]

theorem thm_mov_hi_imm8 (hw m3 m8 : Nat) (h8 : m8 < 2 ^ 8) :
    bits (hw &&& 0b1000111100000000 ||| m3 <<< 12 ||| m8) 7 0 = m8 := by
  unfold bits
  rw [fld_lor, fld_lor, fld_land, @fld_shl_high m3 12 0 (7 - 0 + 1) (by omega)]
  have h8b : m8 < 256 := h8
  simp [Nat.mod_eq_of_lt h8b]

theorem val16thm_sum (m4 i m3 m8 : Nat) (h4 : m4 < 2 ^ 4) (hi : i < 2) (h3 : m3 < 2 ^ 3)
    (h8 : m8 < 2 ^ 8) :
    m4 <<< 12 ||| i <<< 11 ||| m3 <<< 8 ||| m8 =
      m4 * 2 ^ 12 + i * 2 ^ 11 + m3 * 2 ^ 8 + m8 := by
  have e1 : (m4 <<< 12 ||| i <<< 11 ||| m3 <<< 8) % 2 ^ 8 = 0 := by
    rw [mod_lor, mod_lor, mod_shl_high m4 (by omega), mod_shl_high i (by omega),
      mod_shl_high m3 (by omega)]
    simp
  have e2 : (m4 <<< 12 ||| i <<< 11) % 2 ^ 11 = 0 := by
    rw [mod_lor, mod_shl_high m4 (by omega), mod_shl_high i (by omega)]
    simp
  rw [lor_eq_add 8 e1 h8,
    lor_eq_add 11 e2 (by rw [Nat.shiftLeft_eq]; omega),
    lor_eq_add 12 (by rw [mod_shl_high m4 (by omega)]) (by rw [Nat.shiftLeft_eq]; omega)]
  simp only [Nat.shiftLeft_eq]

theorem get_thm_mov_combine (lw hw m4 i m3 m8 : Nat) (h4 : m4 < 2 ^ 4) (hi : i < 2)
    (h3 : m3 < 2 ^ 3) (h8 : m8 < 2 ^ 8) :
    get_thm_mov (combine (lw &&& 0b1111101111110000 ||| i <<< 10 ||| m4)
        (hw &&& 0b1000111100000000 ||| m3 <<< 12 ||| m8)) =
      sign_extend (m4 <<< 12 ||| i <<< 11 ||| m3 <<< 8 ||| m8) 16 := by
  have hL : lw &&& 0b1111101111110000 ||| i <<< 10 ||| m4 < 2 ^ 16 :=
    or_lt_16 (or_lt_16 (and_lt_16 lw (by norm_num)) (shl_bit_lt_16 10 hi (by omega)))
      (by omega)
  have hm3 : m3 <<< 12 < 2 ^ 16 := by rw [Nat.shiftLeft_eq]; omega
  have hH : hw &&& 0b1000111100000000 ||| m3 <<< 12 ||| m8 < 2 ^ 16 :=
    or_lt_16 (or_lt_16 (and_lt_16 hw (by norm_num)) hm3) (by omega)
  unfold get_thm_mov
  dsimp only
  rw [low16_combine _ hL, high16_combine _ hH]
  rw [thm_mov_lo_i lw i m4 hi h4, thm_mov_lo_imm4 lw i m4 h4,
    thm_mov_hi_imm3 hw m3 m8 h3 h8, thm_mov_hi_imm8 hw m3 m8 h8]

set_option maxHeartbeats 1000000 in
/-- get_addend inverts write_thm_mov exactly on signed 16-bit values. -/
theorem get_write_thm_mov (w : Nat) (v : Int) (h1 : -(2 ^ 15) ≤ v) (h2 : v < 2 ^ 15) :
    get_thm_mov (write_thm_mov w v) = v := by
  unfold write_thm_mov
  dsimp only
  rw [get_thm_mov_combine (low16 w) (high16 w) (ibits v 15 12) (ibit v 11) (ibits v 10 8)
    (ibits v 7 0) (ibits_lt v 15 12) (ibit_lt v 11) (ibits_lt v 10 8) (ibits_lt v 7 0)]
  rw [val16thm_sum _ _ _ _ (ibits_lt v 15 12) (ibit_lt v 11) (ibits_lt v 10 8)
    (ibits_lt v 7 0)]
  have hm := toU64_cast v
  unfold ibit ibits bit bits sign_extend
  simp only [Nat.shiftRight_eq_div_pow]
  norm_num
  split <;> omega

/-! ### Round trips for the ARM MOVW/MOVT family -/

theorem arm_mov_imm4 (aw m4 m12 : Nat) (h4 : m4 < 2 ^ 4) (h12 : m12 < 2 ^ 12) :
    bits (aw &&& 0xfff0f000 ||| m4 <<< 16 ||| m12) 19 16 = m4 := by
  unfold bits
  rw [fld_lor, fld_lor, fld_land, fld_shl_low m4 _ (by omega),
    shr_eq_zero (show m12 < 2 ^ 16 by omega)]
  have h4b : m4 < 16 := h4
  simp [Nat.mod_eq_of_lt h4b]

theorem arm_mov_imm12 (aw m4 m12 : Nat) (h12 : m12 < 2 ^ 12) :
    bits (aw &&& 0xfff0f000 ||| m4 <<< 16 ||| m12) 11 0 = m12 := by
  unfold bits
  rw [fld_lor, fld_lor, fld_land, @fld_shl_high m4 16 0 (11 - 0 + 1) (by omega)]
  have h12b : m12 < 4096 := h12
  simp [Nat.mod_eq_of_lt h12b]

theorem val16arm_sum (m4 m12 : Nat) (h4 : m4 < 2 ^ 4) (h12 : m12 < 2 ^ 12) :
    m4 <<< 12 ||| m12 = m4 * 2 ^ 12 + m12 := by
  rw [lor_eq_add 12 (by rw [mod_shl_high m4 (by omega)]) h12]
  simp only [Nat.shiftLeft_eq]

set_option maxHeartbeats 1000000 in
/-- get_addend inverts write_arm_mov exactly on signed 16-bit values. -/
theorem get_write_arm_mov (w : Nat) (v : Int) (h1 : -(2 ^ 15) ≤ v) (h2 : v < 2 ^ 15) :
    get_arm_mov (write_arm_mov w v) = v := by
  unfold write_arm_mov
  dsimp only
  have hW : word32 w &&& 0xfff0f000 ||| ibits v 15 12 <<< 16 ||| ibits v 11 0 < 2 ^ 32 := by
    apply Nat.or_lt_two_pow
    · apply Nat.or_lt_two_pow
      · exact Nat.and_lt_two_pow _ (by norm_num)
      · have := ibits_lt v 15 12
        rw [Nat.shiftLeft_eq]
        norm_num at this ⊢
        omega
    · have := ibits_lt v 11 0
      norm_num at this ⊢
      omega
  unfold get_arm_mov
  dsimp only
  rw [word32_of_lt hW]
  rw [arm_mov_imm4 _ _ _ (ibits_lt v 15 12) (ibits_lt v 11 0),
    arm_mov_imm12 _ _ _ (ibits_lt v 11 0)]
  rw [val16arm_sum _ _ (ibits_lt v 15 12) (ibits_lt v 11 0)]
  have hm := toU64_cast v
  unfold ibits bits sign_extend
  simp only [Nat.shiftRight_eq_div_pow]
  norm_num
  split <;> omega

/-! ### Round trips for the short Thumb branches, the ARM 24-bit family and PREL31 -/

set_option maxHeartbeats 1000000 in
theorem get_write_jump8 (w : Nat) (v : Int) (h1 : -(2 ^ 8) ≤ v) (h2 : v < 2 ^ 8) :
    get_addend R_ARM_THM_JUMP8 (write_addend R_ARM_THM_JUMP8 v w) = v - v % 2 := by
  simp only [get_addend, write_addend]
  norm_num
  have hB : low16 w &&& 0xff00 ||| ibits v 8 1 < 2 ^ 16 :=
    or_lt_16 (and_lt_16 _ (by norm_num)) (by have := ibits_lt v 8 1; norm_num at this ⊢; omega)
  rw [low16_combine _ hB]
  have hc : (low16 w &&& 0xff00 ||| ibits v 8 1) % 2 ^ 8 = ibits v 8 1 % 2 ^ 8 := by
    rw [mod_lor, mod_land]
    simp
  rw [sign_extend_congr 8 hc]
  have hm := toU64_cast v
  unfold ibits bits sign_extend
  simp only [Nat.shiftRight_eq_div_pow]
  norm_num
  split <;> omega

set_option maxHeartbeats 1000000 in
theorem get_write_jump11 (w : Nat) (v : Int) (h1 : -(2 ^ 11) ≤ v) (h2 : v < 2 ^ 11) :
    get_addend R_ARM_THM_JUMP11 (write_addend R_ARM_THM_JUMP11 v w) = v - v % 2 := by
  simp only [get_addend, write_addend]
  norm_num
  have hB : low16 w &&& 0xf800 ||| ibits v 11 1 < 2 ^ 16 :=
    or_lt_16 (and_lt_16 _ (by norm_num))
      (by have := ibits_lt v 11 1; norm_num at this ⊢; omega)
  rw [low16_combine _ hB]
  have hc : (low16 w &&& 0xf800 ||| ibits v 11 1) % 2 ^ 11 = ibits v 11 1 % 2 ^ 11 := by
    rw [mod_lor, mod_land]
    simp
  rw [sign_extend_congr 11 hc]
  have hm := toU64_cast v
  unfold ibits bits sign_extend
  simp only [Nat.shiftRight_eq_div_pow]
  norm_num
  split <;> omega

set_option maxHeartbeats 1000000 in
/-- Decode after encode for the ARM 24-bit word-granularity immediate shape. -/
theorem rt_arm24_core (w : Nat) (v : Int) (h1 : -(2 ^ 25) ≤ v) (h2 : v < 2 ^ 25) :
    sign_extend (word32 (word32 w &&& 0xff000000 ||| ibits v 25 2)) 24 * 4 = v - v % 4 := by
  have hW : word32 w &&& 0xff000000 ||| ibits v 25 2 < 2 ^ 32 := by
    apply Nat.or_lt_two_pow (Nat.and_lt_two_pow _ (by norm_num))
    have := ibits_lt v 25 2
    norm_num at this ⊢
    omega
  rw [word32_of_lt hW]
  have hc : (word32 w &&& 0xff000000 ||| ibits v 25 2) % 2 ^ 24 = ibits v 25 2 % 2 ^ 24 := by
    rw [mod_lor, mod_land]
    simp
  rw [sign_extend_congr 24 hc]
  have hm := toU64_cast v
  unfold ibits bits sign_extend
  simp only [Nat.shiftRight_eq_div_pow]
  norm_num
  split <;> omega

set_option maxHeartbeats 1000000 in
/-- Decode after encode for the 31-bit PC-relative shape. -/
theorem rt_prel31_core (w : Nat) (v : Int) (h1 : -(2 ^ 30) ≤ v) (h2 : v < 2 ^ 30) :
    sign_extend (word32 (word32 w &&& 0x80000000 ||| ibits v 30 0)) 31 = v := by
  have hW : word32 w &&& 0x80000000 ||| ibits v 30 0 < 2 ^ 32 := by
    apply Nat.or_lt_two_pow (Nat.and_lt_two_pow _ (by norm_num))
    have := ibits_lt v 30 0
    norm_num at this ⊢
    omega
  rw [word32_of_lt hW]
  have hc : (word32 w &&& 0x80000000 ||| ibits v 30 0) % 2 ^ 31 = ibits v 30 0 % 2 ^ 31 := by
    rw [mod_lor, mod_land]
    simp
  rw [sign_extend_congr 31 hc]
  have hm := toU64_cast v
  unfold ibits bits sign_extend
  simp only [Nat.shiftRight_eq_div_pow]
  norm_num
  split <;> omega

theorem fld_mod (a : Nat) {m lo k : Nat} (h : lo + k ≤ m) :
    (a % 2 ^ m) >>> lo % 2 ^ k = a >>> lo % 2 ^ k := by
  apply Nat.eq_of_testBit_eq
  intro i
  simp only [Nat.testBit_mod_two_pow, Nat.testBit_shiftRight]
  by_cases hk : i < k
  · have : lo + i < m := by omega
    simp [hk, this]
  · simp [hk]

theorem or_one_eq_one {x : Nat} (h : x < 2) : x ||| 1 = 1 := by
  interval_cases x <;> decide

/-- write_thm_b25 writes a BL/BLX displacement but preserves bit 12 of the high
half-word, the BL-versus-BLX distinction bit. -/
theorem write_thm_b25_bit12 (X : Nat) (v : Int) :
    bit (high16 (write_thm_b25 X v)) 12 = bit (high16 X) 12 := by
  have hJ1 : (1 - ibit v 23) ^^^ ibit v 24 < 2 := xor2_lt (by have := ibit_lt v 23; omega) (ibit_lt v 24)
  have hJ2 : (1 - ibit v 22) ^^^ ibit v 24 < 2 := xor2_lt (by have := ibit_lt v 22; omega) (ibit_lt v 24)
  have h11 := ibits_lt v 11 1
  have hH : high16 X &&& 0b1101000000000000 ||| ((1 - ibit v 23) ^^^ ibit v 24) <<< 13 |||
      ((1 - ibit v 22) ^^^ ibit v 24) <<< 11 ||| ibits v 11 1 < 2 ^ 16 :=
    or_lt_16 (or_lt_16 (or_lt_16 (and_lt_16 _ (by norm_num))
      (shl_bit_lt_16 13 hJ1 (by omega))) (shl_bit_lt_16 11 hJ2 (by omega)))
      (by norm_num at h11 ⊢; omega)
  unfold write_thm_b25
  dsimp only
  rw [high16_combine _ hH]
  unfold bit bits
  rw [fld_lor, fld_lor, fld_lor, fld_land,
    @fld_shl_high ((1 - ibit v 23) ^^^ ibit v 24) 13 12 (12 - 12 + 1) (by omega),
    fld_shl_low ((1 - ibit v 22) ^^^ ibit v 24) _ (by omega),
    shr_eq_zero (show (1 - ibit v 22) ^^^ ibit v 24 < 2 ^ (12 - 11) by omega),
    shr_eq_zero (show ibits v 11 1 < 2 ^ 12 by norm_num at h11 ⊢; omega)]
  simp

/-- Setting the BL bit before the displacement write leaves bit 12 set. -/
theorem thm_call_bl_bit (lo hi : Nat) (v : Int) :
    bit (high16 (write_thm_b25 (combine lo (hi ||| 0x1000)) v)) 12 = 1 := by
  rw [write_thm_b25_bit12, high16_combine_mod]
  unfold bit bits
  rw [fld_mod _ (by omega), fld_lor]
  have hb : hi >>> 12 % 2 ^ (12 - 12 + 1) < 2 := by
    have : (12 : Nat) - 12 + 1 = 1 := rfl
    rw [this]
    exact Nat.mod_lt _ (by norm_num)
  norm_num at hb ⊢
  exact or_one_eq_one hb

/-- Clearing the BL bit before the displacement write leaves bit 12 clear. -/
theorem thm_call_blx_bit (lo hi : Nat) (v : Int) :
    bit (high16 (write_thm_b25 (combine lo (hi &&& 0xefff)) v)) 12 = 0 := by
  rw [write_thm_b25_bit12, high16_combine_mod]
  unfold bit bits
  rw [fld_mod _ (by omega), fld_land]
  simp

/-! ### Claim C3 -/

/-- Claim C3 as stated is false: v = 1 is representable as a signed integer of the
8-bit family's width, but decoding after encoding through the THM_JUMP8 codec drops
bit 0 and returns 0, not 1. -/
theorem C3_counterexample :
    get_addend R_ARM_THM_JUMP8 (write_addend R_ARM_THM_JUMP8 1 0) ≠ 1 := by decide

/-- Claim C3, amended: decode(encode(v)) = v holds for every value v representable in
the relocation family's immediate field: v must additionally be a multiple of the
field's scale (2 for Thumb branch families, 4 for the ARM 24-bit family), the ranges
are those of the stored field widths (9/12/16/21/25/26/31 value bits), and the 19/21
family is written by write_thm_b21 (its kind has no write_addend case; the apply pass
calls write_thm_b21 directly). -/
theorem C3_amended (v : Int) (w : Nat) :
    ((2 ∣ v) → -(2 ^ 8) ≤ v → v < 2 ^ 8 →
      get_addend R_ARM_THM_JUMP8 (write_addend R_ARM_THM_JUMP8 v w) = v) ∧
    ((2 ∣ v) → -(2 ^ 11) ≤ v → v < 2 ^ 11 →
      get_addend R_ARM_THM_JUMP11 (write_addend R_ARM_THM_JUMP11 v w) = v) ∧
    (∀ k, (k = R_ARM_MOVW_PREL_NC ∨ k = R_ARM_MOVW_ABS_NC ∨ k = R_ARM_MOVT_PREL ∨
        k = R_ARM_MOVT_ABS) → -(2 ^ 15) ≤ v → v < 2 ^ 15 →
      get_addend k (write_addend k v w) = v) ∧
    (∀ k, (k = R_ARM_THM_MOVW_PREL_NC ∨ k = R_ARM_THM_MOVW_ABS_NC ∨
        k = R_ARM_THM_MOVT_PREL ∨ k = R_ARM_THM_MOVT_ABS) → -(2 ^ 15) ≤ v → v < 2 ^ 15 →
      get_addend k (write_addend k v w) = v) ∧
    ((2 ∣ v) → -(2 ^ 20) ≤ v → v < 2 ^ 20 →
      get_addend R_ARM_THM_JUMP19 (write_thm_b21 w v) = v) ∧
    (∀ k, (k = R_ARM_THM_CALL ∨ k = R_ARM_THM_JUMP24 ∨ k = R_ARM_THM_TLS_CALL) →
      (2 ∣ v) → -(2 ^ 24) ≤ v → v < 2 ^ 24 →
      get_addend k (write_addend k v w) = v) ∧
    (∀ k, (k = R_ARM_CALL ∨ k = R_ARM_JUMP24 ∨ k = R_ARM_PLT32) →
      (4 ∣ v) → -(2 ^ 25) ≤ v → v < 2 ^ 25 →
      get_addend k (write_addend k v w) = v) ∧
    (-(2 ^ 30) ≤ v → v < 2 ^ 30 →
      get_addend R_ARM_PREL31 (write_addend R_ARM_PREL31 v w) = v) := by
  refine ⟨?_, ?_, ?_, ?_, ?_, ?_, ?_, ?_⟩
  · intro hd h1 h2
    rw [get_write_jump8 w v h1 h2]
    omega
  · intro hd h1 h2
    rw [get_write_jump11 w v h1 h2]
    omega
  · rintro k (rfl | rfl | rfl | rfl) h1 h2 <;>
      · simp only [get_addend, write_addend]
        norm_num
        exact get_write_arm_mov w v h1 h2
  · rintro k (rfl | rfl | rfl | rfl) h1 h2 <;>
      · simp only [get_addend, write_addend]
        norm_num
        exact get_write_thm_mov w v h1 h2
  · intro hd h1 h2
    have : get_addend R_ARM_THM_JUMP19 (write_thm_b21 w v) =
        get_thm_b21 (write_thm_b21 w v) := by
      simp only [get_addend]
      norm_num
    rw [this, get_write_thm_b21 w v h1 h2]
    omega
  · rintro k (rfl | rfl | rfl) hd h1 h2 <;>
      · simp only [get_addend, write_addend]
        norm_num
        rw [get_write_thm_b25 w v h1 h2]
        omega
  · rintro k (rfl | rfl | rfl) hd h1 h2 <;>
      · simp only [get_addend, write_addend]
        norm_num
        rw [rt_arm24_core w v h1 h2]
        omega
  · intro h1 h2
    simp only [get_addend, write_addend]
    norm_num
    exact rt_prel31_core w v h1 h2

/-- Witness for C3_amended at the 25-bit boundary value. -/
theorem C3_amended_witness :
    get_addend R_ARM_THM_CALL (write_addend R_ARM_THM_CALL (-16777216) 0x12345678) =
      -16777216 :=
  (C3_amended (-16777216) 0x12345678).2.2.2.2.2.1 R_ARM_THM_CALL (Or.inl rfl)
    (by decide) (by decide) (by decide)

/-! ### Claim C5 -/

/-- Claim C5: an R_ARM_CALL relocation on a symbol that is not weak-and-undefined whose
existing opcode is neither BL nor BLX is immediately fatal. -/
theorem C5_arm_call_fatal (env : RelocEnv) (w : Nat) (hweak : env.isUndefWeak = false)
    (hbl : ¬ word32 w &&& 0xff000000 = 0xeb000000)
    (hblx : ¬ word32 w &&& 0xfe000000 = 0xfa000000) :
    apply_reloc_alloc1 env R_ARM_CALL w = .fatal := by
  simp [apply_reloc_alloc1, hweak, hbl, hblx]

/-- Witness for C5 at the all-zero opcode word. -/
theorem C5_witness :
    apply_reloc_alloc1 ⟨0, 0, 0, 0, 0, false, false, false, 0, 0, 0, 0, 0, 0, 0, []⟩
      R_ARM_CALL 0 = .fatal :=
  C5_arm_call_fatal _ 0 rfl (by decide) (by decide)

/-! ### Claim C7 -/

/-- Claim C7: for R_ARM_TLS_GOTDESC, a symbol needing neither a TLS descriptor nor a
GOT TP offset receives exactly S - tp_addr independently of the addend; otherwise the
addend's parity only selects the fixed displacement constant (6 versus 4 on the
descriptor path, 5 versus 8 on the GOT-indirect path). -/
theorem C7_tls_gotdesc (env : RelocEnv) (w : Nat) :
    (env.hasTlsdesc = false → env.hasGottp = false →
      apply_reloc_alloc1 env R_ARM_TLS_GOTDESC w = .ok (u32 ((env.S : Int) - env.tpAddr)) ∧
      ∀ A2 : Int, apply_reloc_alloc1 { env with A := A2 } R_ARM_TLS_GOTDESC w =
        apply_reloc_alloc1 env R_ARM_TLS_GOTDESC w) ∧
    (env.hasTlsdesc = true →
      apply_reloc_alloc1 env R_ARM_TLS_GOTDESC w =
        .ok (u32 ((env.tlsdescAddr : Int) - env.P + env.A -
          (if toU64 env.A &&& 1 ≠ 0 then 6 else 4)))) ∧
    (env.hasTlsdesc = false → env.hasGottp = true →
      apply_reloc_alloc1 env R_ARM_TLS_GOTDESC w =
        .ok (u32 ((env.gottpAddr : Int) - env.P + env.A -
          (if toU64 env.A &&& 1 ≠ 0 then 5 else 8)))) := by
  refine ⟨fun h1 h2 => ⟨?_, fun A2 => ?_⟩, fun h1 => ?_, fun h1 h2 => ?_⟩
  · simp [apply_reloc_alloc1, h1, h2]
  · simp [apply_reloc_alloc1, h1, h2]
  · simp [apply_reloc_alloc1, h1]
  · simp [apply_reloc_alloc1, h1, h2]

/-- Witness for C7 on the fully relaxed path. -/
theorem C7_witness :
    apply_reloc_alloc1 ⟨0x3000, 7, 0, 0, 0, false, false, false, 0, 0, 0, 0, 0, 0x1000, 0, []⟩
      R_ARM_TLS_GOTDESC 0 = .ok (u32 ((0x3000 : Int) - 0x1000)) :=
  ((C7_tls_gotdesc _ 0).1 rfl rfl).1

/-! ### Claim C10 -/

/-- Claim C10: R_ARM_ABS32, R_ARM_TARGET1, R_NONE and R_ARM_V4BX leave the bytes at the
fixup location unchanged in apply_reloc_alloc. -/
theorem C10_no_write (env : RelocEnv) (w : Nat) :
    apply_reloc_alloc1 env R_ARM_ABS32 w = .ok w ∧
    apply_reloc_alloc1 env R_ARM_TARGET1 w = .ok w ∧
    apply_reloc_alloc1 env R_ARM_NONE w = .ok w ∧
    apply_reloc_alloc1 env R_ARM_V4BX w = .ok w := by
  refine ⟨?_, ?_, ?_, ?_⟩ <;> simp [apply_reloc_alloc1]

/-! ### Claim C8 -/

/-- Claim C8: apply_reloc_nonalloc supports only R_ARM_ABS32 and R_ARM_TLS_LDO32,
writes the tombstone value when the referenced symbol or fragment was discarded, and is
immediately fatal on any other kind that reaches the dispatch. -/
theorem C8_nonalloc (env : NonallocEnv) (w t : Nat) :
    (env.skipUndef = false → env.tombstone = some t →
      apply_reloc_nonalloc1 env R_ARM_ABS32 w = .ok (u32 (t : Int)) ∧
      apply_reloc_nonalloc1 env R_ARM_TLS_LDO32 w = .ok (u32 (t : Int))) ∧
    (env.skipUndef = false → env.tombstone = none →
      apply_reloc_nonalloc1 env R_ARM_ABS32 w = .ok (u32 (env.S + env.A)) ∧
      apply_reloc_nonalloc1 env R_ARM_TLS_LDO32 w =
        .ok (u32 (env.S + env.A - env.dtpAddr))) ∧
    (∀ k, env.skipUndef = false → ¬ k = R_ARM_NONE → ¬ k = R_ARM_ABS32 →
      ¬ k = R_ARM_TLS_LDO32 → apply_reloc_nonalloc1 env k w = .fatal) := by
  refine ⟨fun hs ht => ⟨?_, ?_⟩, fun hs ht => ⟨?_, ?_⟩, fun k hs h0 h2 h6 => ?_⟩
  · simp [apply_reloc_nonalloc1, hs, ht]
  · simp [apply_reloc_nonalloc1, hs, ht]
  · simp [apply_reloc_nonalloc1, hs, ht]
  · simp [apply_reloc_nonalloc1, hs, ht]
  · simp only [R_ARM_NONE] at h0
    simp only [R_ARM_ABS32] at h2
    simp only [R_ARM_TLS_LDO32] at h6
    simp [apply_reloc_nonalloc1, hs, h0, h2, h6]

/-- Witness for C8 on the tombstone path. -/
theorem C8_witness :
    apply_reloc_nonalloc1 ⟨4, 2, some 0xdead, 0, false⟩ R_ARM_ABS32 9 =
      .ok (u32 ((0xdead : Nat) : Int)) :=
  ((C8_nonalloc ⟨4, 2, some 0xdead, 0, false⟩ 9 0xdead).1 rfl rfl).1

/-! ### Claim C6 -/

/-- Claim C6: R_ARM_JUMP24 and R_ARM_THM_JUMP24 route through the thunk entry matching
the caller's mode whenever the target's mode differs from the instruction's mode, with
no range test in that case, and write the architecture no-op when the symbol is weak
and still undefined. -/
theorem C6_jump_thunks (env : RelocEnv) (w : Nat) :
    (env.isUndefWeak = true →
      apply_reloc_alloc1 env R_ARM_JUMP24 w = .ok (u32 0xe320f000) ∧
      apply_reloc_alloc1 env R_ARM_THM_JUMP24 w = .ok (u32 0x8000f3af)) ∧
    (env.isUndefWeak = false → ¬ env.S &&& 1 = 0 →
      apply_reloc_alloc1 env R_ARM_JUMP24 w =
        .ok (word32 w &&& 0xff000000 |||
          ibits (toI64 (get_arm_thunk_addr env + env.A - env.P)) 25 2)) ∧
    (env.isUndefWeak = false → env.S &&& 1 = 0 →
      apply_reloc_alloc1 env R_ARM_THM_JUMP24 w =
        .ok (write_thm_b25 w (toI64 (get_thumb_thunk_addr env + env.A - env.P)))) := by
  refine ⟨fun hw => ⟨?_, ?_⟩, fun hw hT => ?_, fun hw hT => ?_⟩
  · simp [apply_reloc_alloc1, hw]
  · simp [apply_reloc_alloc1, hw]
  · rw [Nat.and_one_is_mod] at hT
    have hT2 : env.S % 2 = 1 := by omega
    simp [apply_reloc_alloc1, hw, hT2]
  · rw [Nat.and_one_is_mod] at hT
    simp [apply_reloc_alloc1, hw, hT]

/-- Witness for C6: an in-range ARM-mode jump to a Thumb target still goes through the
thunk's ARM entry point. -/
theorem C6_witness :
    apply_reloc_alloc1 ⟨0x2001, 0, 0x2000, 0, 0, false, false, false, 0x100000, 0, 0, 0,
        0, 0, 0, []⟩ R_ARM_JUMP24 0xea000000 =
      .ok (word32 0xea000000 &&& 0xff000000 |||
        ibits (toI64 (get_arm_thunk_addr ⟨0x2001, 0, 0x2000, 0, 0, false, false, false,
          0x100000, 0, 0, 0, 0, 0, 0, []⟩ + (0 : Int) - (0x2000 : Nat))) 25 2) :=
  (C6_jump_thunks _ 0xea000000).2.1 rfl (by decide)

/-! ### Claim C4 -/

/-- is_int unfolded. -/
theorem is_int_spec (v : Int) (n : Nat) :
    is_int v n = true ↔ -(2 ^ (n - 1) : Int) ≤ v ∧ v < 2 ^ (n - 1) := by
  unfold is_int
  simp

/-- toI64 of an align_to(-, 4) result is even. -/
theorem toI64_align4_even (x : Int) : toI64 (align4_u64 x) % 2 = 0 := by
  unfold toI64 align4_u64 toU64
  omega

/-- Claim C4 as stated is false: an R_ARM_THM_CALL whose ARM-mode target is within the
direct BLX range is rewritten to a mode-exchanging BLX call, not redirected to the
Thumb thunk entry the claim requires for every mode mismatch. -/
theorem C4_counterexample :
    apply_reloc_alloc1 ⟨0x1000, 0, 0x2000, 0, 0, false, false, false, 0x100000, 0, 0, 0,
        0, 0, 0, []⟩ R_ARM_THM_CALL 0xf800d000 ≠
      RelResult.ok (write_thm_b25 (combine (low16 0xf800d000) (high16 0xf800d000 ||| 0x1000))
        (toI64 ((0x100000 : Int) + 0 - 0x2000))) := by decide

/-- Claim C4, amended: weak-undefined targets always receive the Thumb-2 wide no-op;
a Thumb target in signed 25-bit range gets a BL (bit 12 of the high half set) carrying
S + A - P with bit 0 dropped; an ARM target whose 4-aligned displacement is in range
gets a direct BLX (bit 12 clear) carrying that aligned displacement exactly; only when
neither direct form fits does the call go to the Thumb thunk entry. -/
theorem C4_thm_call (env : RelocEnv) (w : Nat) :
    (env.isUndefWeak = true →
      apply_reloc_alloc1 env R_ARM_THM_CALL w = .ok (u32 0x8000f3af)) ∧
    (env.isUndefWeak = false → ¬ env.S &&& 1 = 0 →
      is_int (toI64 (env.S + env.A - env.P)) 25 = true →
      apply_reloc_alloc1 env R_ARM_THM_CALL w =
        .ok (write_thm_b25 (combine (low16 w) (high16 w ||| 0x1000))
          (toI64 (env.S + env.A - env.P))) ∧
      bit (high16 (write_thm_b25 (combine (low16 w) (high16 w ||| 0x1000))
        (toI64 (env.S + env.A - env.P)))) 12 = 1 ∧
      get_addend R_ARM_THM_CALL (write_thm_b25 (combine (low16 w) (high16 w ||| 0x1000))
          (toI64 (env.S + env.A - env.P))) =
        toI64 (env.S + env.A - env.P) - toI64 (env.S + env.A - env.P) % 2) ∧
    (env.isUndefWeak = false → env.S &&& 1 = 0 →
      is_int (toI64 (align4_u64 (env.S + env.A - env.P))) 25 = true →
      apply_reloc_alloc1 env R_ARM_THM_CALL w =
        .ok (write_thm_b25 (combine (low16 w) (high16 w &&& 0xefff))
          (toI64 (align4_u64 (env.S + env.A - env.P)))) ∧
      bit (high16 (write_thm_b25 (combine (low16 w) (high16 w &&& 0xefff))
        (toI64 (align4_u64 (env.S + env.A - env.P))))) 12 = 0 ∧
      get_addend R_ARM_THM_CALL (write_thm_b25 (combine (low16 w) (high16 w &&& 0xefff))
          (toI64 (align4_u64 (env.S + env.A - env.P)))) =
        toI64 (align4_u64 (env.S + env.A - env.P))) ∧
    (env.isUndefWeak = false →
      ¬ (¬ env.S &&& 1 = 0 ∧ is_int (toI64 (env.S + env.A - env.P)) 25 = true) →
      ¬ (env.S &&& 1 = 0 ∧ is_int (toI64 (align4_u64 (env.S + env.A - env.P))) 25 = true) →
      apply_reloc_alloc1 env R_ARM_THM_CALL w =
        .ok (write_thm_b25 (combine (low16 w) (high16 w ||| 0x1000))
          (toI64 (get_thumb_thunk_addr env + env.A - env.P)))) := by
  refine ⟨fun hw => ?_, fun hw hT hfit => ⟨?_, ?_, ?_⟩, fun hw hT hfit => ⟨?_, ?_, ?_⟩,
    fun hw hn1 hn2 => ?_⟩
  · simp [apply_reloc_alloc1, hw]
  · rw [Nat.and_one_is_mod] at hT
    have hT2 : env.S % 2 = 1 := by omega
    simp [apply_reloc_alloc1, hw, hT2, hfit]
  · exact thm_call_bl_bit (low16 w) (high16 w) _
  · have hb := (is_int_spec _ 25).mp hfit
    norm_num at hb
    have := get_write_thm_b25 (combine (low16 w) (high16 w ||| 0x1000))
      (toI64 (env.S + env.A - env.P)) (by omega) (by omega)
    simp only [get_addend]
    norm_num
    exact this
  · rw [Nat.and_one_is_mod] at hT
    simp [apply_reloc_alloc1, hw, hT, hfit]
  · exact thm_call_blx_bit (low16 w) (high16 w) _
  · have hb := (is_int_spec _ 25).mp hfit
    norm_num at hb
    have h := get_write_thm_b25 (combine (low16 w) (high16 w &&& 0xefff))
      (toI64 (align4_u64 (env.S + env.A - env.P))) (by omega) (by omega)
    have he := toI64_align4_even (env.S + env.A - env.P)
    simp only [get_addend]
    norm_num
    rw [h]
    omega
  · rw [Nat.and_one_is_mod] at hn1 hn2
    rcases Nat.mod_two_eq_zero_or_one env.S with hp | hp
    · have hf2 : ¬ is_int (toI64 (align4_u64 (env.S + env.A - env.P))) 25 = true :=
        fun hf => hn2 ⟨hp, hf⟩
      simp [apply_reloc_alloc1, hw, hp, hf2]
    · have hf1 : ¬ is_int (toI64 (env.S + env.A - env.P)) 25 = true :=
        fun hf => hn1 ⟨by omega, hf⟩
      simp [apply_reloc_alloc1, hw, hp, hf1]

/-- Witness for C4 on the same-mode in-range BL path. -/
theorem C4_witness :
    apply_reloc_alloc1 ⟨0x2001, 0, 0x2000, 0, 0, false, false, false, 0, 0, 0, 0, 0, 0,
        0, []⟩ R_ARM_THM_CALL 0 =
      .ok (write_thm_b25 (combine (low16 0) (high16 0 ||| 0x1000))
        (toI64 ((0x2001 : Nat) + (0 : Int) - (0x2000 : Nat)))) :=
  ((C4_thm_call ⟨0x2001, 0, 0x2000, 0, 0, false, false, false, 0, 0, 0, 0, 0, 0, 0, []⟩
    0).2.1 rfl (by decide) (by decide)).1

/-! ### Claim C1 -/

/-- Claim C1 as stated is false for the allocated-section pass: kind 52
(R_ARM_THM_JUMP6) carries no case label, and apply_reloc_alloc records a recoverable
diagnostic (Error(ctx)) instead of aborting. -/
theorem C1_counterexample :
    alloc_handled 52 = false ∧
      apply_reloc_alloc1 ⟨0, 0, 0, 0, 0, false, false, false, 0, 0, 0, 0, 0, 0, 0, []⟩
        52 77 ≠ RelResult.fatal := by
  constructor
  · decide
  · decide

/-- Claim C1, amended: an unrecognized relocation kind is immediately fatal in
apply_eh_reloc, but in apply_reloc_alloc it only records a recoverable per-relocation
error and the loop continues with the remaining relocations. -/
theorem C1_amended (k : Nat) (env : RelocEnv) (w shAddr off val : Nat)
    (rest : List (RelocEnv × Nat × Nat)) :
    (eh_handled k = false → apply_eh_reloc shAddr off val k w = .fatal) ∧
    (alloc_handled k = false →
      apply_reloc_alloc1 env k w = .errorCont w ∧
      apply_reloc_alloc_seq ((env, k, w) :: rest) =
        .errorCont w :: apply_reloc_alloc_seq rest) := by
  constructor
  · intro h
    simp [eh_handled] at h
    obtain ⟨h0, h2, h3⟩ := h
    simp [apply_eh_reloc, h0, h2, h3]
  · intro h
    simp [alloc_handled] at h
    obtain ⟨h0, h40, h2, h38, h3, h10, h25, h24, h96, h41, h26, h28, h29, h27, h103,
      h102, h51, h30, h45, h43, h49, h42, h47, h46, h50, h44, h48, h104, h105, h106,
      h107, h108, h90, h91, h93⟩ := h
    have hres : apply_reloc_alloc1 env k w = .errorCont w := by
      simp [apply_reloc_alloc1, h0, h40, h2, h38, h3, h10, h25, h24, h96, h41, h26,
        h28, h29, h27, h103, h102, h51, h30, h45, h43, h49, h42, h47, h46, h50, h44,
        h48, h104, h105, h106, h107, h108, h90, h91, h93]
    refine ⟨hres, ?_⟩
    simp [apply_reloc_alloc_seq, hres]

/-- Witness for C1_amended at kind 52 (R_ARM_THM_JUMP6). -/
theorem C1_witness :
    apply_eh_reloc 0 0 0 52 3 = RelResult.fatal ∧
      apply_reloc_alloc1 ⟨1, 2, 3, 4, 5, false, false, false, 6, 7, 8, 9, 10, 11, 12, []⟩
        52 77 = RelResult.errorCont 77 :=
  ⟨(C1_amended 52 ⟨1, 2, 3, 4, 5, false, false, false, 6, 7, 8, 9, 10, 11, 12, []⟩
      77 0 0 0 []).1 (by decide),
    ((C1_amended 52 ⟨1, 2, 3, 4, 5, false, false, false, 6, 7, 8, 9, 10, 11, 12, []⟩
      77 0 0 0 []).2 (by decide)).1⟩

/-! ### Claim C9 -/

/-- Claim C9 as stated is false: at a call site whose address equals a thunk start, the
code's upper_bound lookup (strictly greater) and the claimed nearest-greater-or-equal
lookup disagree. -/
theorem C9_counterexample :
    get_reachable_thunk [0, 8] 0 ≠ nearest_ge_thunk [0, 8] 0 := by decide

/-- find? with the strict comparator on a sorted list returns the first element
strictly above addr, which is minimal among all such elements. -/
theorem find_first_gt {addr : Nat} : ∀ {l : List Nat}, List.Sorted (· ≤ ·) l →
    ∀ {t : Nat}, l.find? (fun x => decide (addr < x)) = some t →
    t ∈ l ∧ addr < t ∧ ∀ u ∈ l, addr < u → t ≤ u := by
  intro l
  induction l with
  | nil =>
    intro _ t h
    simp at h
  | cons a as ih =>
    intro hs t hf
    rw [List.sorted_cons] at hs
    by_cases ha : addr < a
    · rw [List.find?_cons_of_pos _ (by simpa using ha)] at hf
      simp only [Option.some.injEq] at hf
      subst hf
      refine ⟨List.mem_cons_self a as, ha, ?_⟩
      intro u hu _
      rcases List.mem_cons.mp hu with rfl | hu2
      · exact Nat.le_refl _
      · exact hs.1 u hu2
    · rw [List.find?_cons_of_neg _ (by simpa using ha)] at hf
      obtain ⟨ht1, ht2, ht3⟩ := ih hs.2 hf
      refine ⟨List.mem_cons_of_mem a ht1, ht2, ?_⟩
      intro u hu hau
      rcases List.mem_cons.mp hu with rfl | hu2
      · exact absurd hau ha
      · exact ht3 u hu2 hau

/-- Claim C9, amended: on the address-sorted thunk list, get_reachable_thunk returns
the nearest thunk whose start address is strictly greater than the call site address,
and the TLS_CALL descriptor path encodes its branch to exactly that trampoline
address. -/
theorem C9_amended (l : List Nat) (addr : Nat) (hs : List.Sorted (· ≤ ·) l) :
    (∀ t, get_reachable_thunk l addr = some t →
      t ∈ l ∧ addr < t ∧ ∀ u ∈ l, addr < u → t ≤ u) ∧
    (∀ (env : RelocEnv) (w : Nat), env.hasTlsdesc = true →
      apply_reloc_alloc1 env R_ARM_TLS_CALL w =
        .ok (0xeb000000 |||
          ibits ((get_tlsdesc_trampoline_addr env : Int) - env.P - 8) 25 2)) := by
  constructor
  · intro t hf
    exact find_first_gt hs hf
  · intro env w hd
    simp [apply_reloc_alloc1, hd]

/-- Witness for C9_amended: lookup at addr 3 in the sorted list [5, 9]. -/
theorem C9_witness :
    5 ∈ [5, 9] ∧ 3 < 5 ∧ ∀ u ∈ [5, 9], 3 < u → 5 ≤ u :=
  (C9_amended [5, 9] 3 (by decide)).1 5 (by decide)

/-! ### Support lemmas for the exception index builder -/

theorem length_normFrom : ∀ (l : List ExEntry) (i : Nat), (normFrom i l).length = l.length := by
  intro l
  induction l with
  | nil => intro i; rfl
  | cons e es ih =>
    intro i
    simp [normFrom, ih]

theorem length_rerelFrom : ∀ (l : List ExEntry) (i : Nat),
    (rerelFrom i l).length = l.length := by
  intro l
  induction l with
  | nil => intro i; rfl
  | cons e es ih =>
    intro i
    simp [rerelFrom, ih]

theorem normFrom_append : ∀ (xs ys : List ExEntry) (i : Nat),
    normFrom i (xs ++ ys) = normFrom i xs ++ normFrom (i + xs.length) ys := by
  intro xs
  induction xs with
  | nil =>
    intro ys i
    simp [normFrom]
  | cons x xs ih =>
    intro ys i
    show normEntry i x :: normFrom (i + 1) (xs ++ ys) =
      normEntry i x :: (normFrom (i + 1) xs ++ normFrom (i + (xs.length + 1)) ys)
    have hx : i + 1 + xs.length = i + (xs.length + 1) := by omega
    rw [ih ys (i + 1), hx]

theorem uniqAdjFrom_sublist : ∀ (l : List ExEntry) (last : ExEntry),
    List.Sublist (uniqAdjFrom last l) l := by
  intro l
  induction l with
  | nil => intro last; exact List.Sublist.refl _
  | cons y ys ih =>
    intro last
    unfold uniqAdjFrom
    by_cases h : y.val = last.val
    · rw [if_pos h]
      exact (ih last).cons y
    · rw [if_neg h]
      exact (ih y).cons₂ y

theorem uniqAdj_sublist (l : List ExEntry) : List.Sublist (uniqAdj l) l := by
  cases l with
  | nil => exact List.Sublist.refl _
  | cons e es => exact (uniqAdjFrom_sublist es e).cons₂ e

theorem adjValsDiffer_uniqAdjFrom : ∀ (l : List ExEntry) (last : ExEntry),
    adjValsDiffer (last :: uniqAdjFrom last l) = true := by
  intro l
  induction l with
  | nil => intro last; rfl
  | cons y ys ih =>
    intro last
    unfold uniqAdjFrom
    by_cases h : y.val = last.val
    · rw [if_pos h]
      exact ih last
    · rw [if_neg h]
      have h2 := ih y
      unfold adjValsDiffer
      rw [h2]
      simp [Ne.symm h]

theorem adjValsDiffer_uniqAdj (l : List ExEntry) : adjValsDiffer (uniqAdj l) = true := by
  cases l with
  | nil => rfl
  | cons e es => exact adjValsDiffer_uniqAdjFrom es e

theorem uniqAdjFrom_append_last (x : ExEntry) : ∀ (l : List ExEntry) (last : ExEntry),
    (∀ y ∈ l, y.val ≠ x.val) → last.val ≠ x.val →
    (uniqAdjFrom last (l ++ [x])).getLast? = some x := by
  intro l
  induction l with
  | nil =>
    intro last _ hlast
    simp only [List.nil_append]
    unfold uniqAdjFrom
    rw [if_neg (fun hh => hlast hh.symm)]
    rfl
  | cons y ys ih =>
    intro last hall hlast
    simp only [List.cons_append]
    unfold uniqAdjFrom
    by_cases h : y.val = last.val
    · rw [if_pos h]
      exact ih last (fun z hz => hall z (List.mem_cons_of_mem y hz)) hlast
    · rw [if_neg h]
      have hy : y.val ≠ x.val := hall y (List.mem_cons_self y ys)
      have hL := ih y (fun z hz => hall z (List.mem_cons_of_mem y hz)) hy
      show ([y] ++ uniqAdjFrom y (ys ++ [x])).getLast? = some x
      rw [List.getLast?_append, hL]
      rfl

theorem uniqAdj_append_last (l : List ExEntry) (x : ExEntry)
    (h : ∀ y ∈ l, y.val ≠ x.val) : (uniqAdj (l ++ [x])).getLast? = some x := by
  cases l with
  | nil => rfl
  | cons a as =>
    simp only [List.cons_append]
    unfold uniqAdj
    have hL := uniqAdjFrom_append_last x as a
      (fun z hz => h z (List.mem_cons_of_mem a hz)) (h a (List.mem_cons_self a as))
    show ([a] ++ uniqAdjFrom a (as ++ [x])).getLast? = some x
    rw [List.getLast?_append, hL]
    rfl

theorem sorted_max_last : ∀ (l : List ExEntry), List.Sorted exLE l → ∀ x ∈ l,
    (∀ y ∈ l, y = x ∨ y.addr < x.addr) → l.getLast? = some x := by
  intro l
  induction l with
  | nil =>
    intro _ x hx
    simp at hx
  | cons a as ih =>
    intro hs x hx hmax
    rw [List.sorted_cons] at hs
    cases as with
    | nil =>
      simp only [List.mem_singleton] at hx
      rw [hx]
      rfl
    | cons b bs =>
      have hxin : x ∈ b :: bs := by
        rcases List.mem_cons.mp hx with rfl | h2
        · rcases hmax b (List.mem_cons_of_mem x (List.mem_cons_self b bs)) with rfl | hlt
          · exact List.mem_cons_self _ _
          · have hab : exLE x b := hs.1 b (List.mem_cons_self b bs)
            unfold exLE at hab
            omega
        · exact h2
      rw [List.getLast?_cons_cons]
      exact ih hs.2 x hxin (fun y hy => hmax y (List.mem_cons_of_mem a hy))

theorem rerelFrom_getLast? : ∀ (l : List ExEntry) (i : Nat) (x : ExEntry),
    l.getLast? = some x →
    (rerelFrom i l).getLast? = some (rerelEntry (i + l.length - 1) x) := by
  intro l
  induction l with
  | nil =>
    intro i x h
    simp at h
  | cons a as ih =>
    intro i x h
    cases as with
    | nil =>
      simp only [List.getLast?_singleton, Option.some.injEq] at h
      rw [h]
      rfl
    | cons b bs =>
      rw [List.getLast?_cons_cons] at h
      have h2 := ih (i + 1) x h
      have hshape : rerelFrom i (a :: b :: bs) =
          rerelEntry i a :: rerelFrom (i + 1) (b :: bs) := rfl
      rw [hshape]
      have hne : rerelFrom (i + 1) (b :: bs) ≠ [] := by
        intro hnil
        rw [hnil] at h2
        simp at h2
      show ([rerelEntry i a] ++ rerelFrom (i + 1) (b :: bs)).getLast? =
        some (rerelEntry (i + (a :: b :: bs).length - 1) x)
      rw [List.getLast?_append, h2]
      simp only [Option.or_some, Option.some.injEq]
      have hlen2 : i + 1 + (b :: bs).length - 1 = i + (a :: b :: bs).length - 1 := by
        simp only [List.length_cons]
        omega
      rw [hlen2]

theorem rerelEntry_val_cant (i : Nat) (e : ExEntry) (h : e.val = CANTUNWIND) :
    (rerelEntry i e).val = CANTUNWIND := by
  unfold rerelEntry
  simp [h, exidx_is_relative, CANTUNWIND]

set_option maxHeartbeats 1000000 in
/-- Re-relativisation composed with de-relativisation is the identity on the
normalized address when the address and the table size are in the signed 31-bit
self-relative range. -/
theorem rerel_derel (i : Nat) (e : ExEntry) (he : e.addr < 2 ^ 30) (hi : 8 * i ≤ 2 ^ 30) :
    derelAddr i (rerelEntry i e) = (e.addr : Int) := by
  unfold derelAddr rerelEntry ibits bits toU64 sign_extend
  simp only [Nat.shiftRight_eq_div_pow]
  norm_num
  split <;> omega

theorem strictAsc_rerel : ∀ (l : List ExEntry) (i : Nat),
    (∀ e ∈ l, e.addr < 2 ^ 30) → 8 * i + 8 * l.length ≤ 2 ^ 30 →
    List.Pairwise (fun a b => a.addr < b.addr) l →
    strictAscFrom i (rerelFrom i l) = true := by
  intro l
  induction l with
  | nil =>
    intro i _ _ _
    rfl
  | cons a rest ih =>
    intro i hb hlen hp
    cases rest with
    | nil => rfl
    | cons b rest2 =>
      have hshape : rerelFrom i (a :: b :: rest2) =
          rerelEntry i a :: rerelEntry (i + 1) b :: rerelFrom (i + 2) rest2 := rfl
      rw [hshape]
      unfold strictAscFrom
      have hab : derelAddr i (rerelEntry i a) < derelAddr (i + 1) (rerelEntry (i + 1) b) := by
        rw [rerel_derel i a (hb a (List.mem_cons_self _ _)) (by simp at hlen; omega),
          rerel_derel (i + 1) b (hb b (List.mem_cons_of_mem a (List.mem_cons_self _ _)))
            (by simp at hlen; omega)]
        have := List.rel_of_pairwise_cons hp (List.mem_cons_self b rest2)
        omega
      have htail : strictAscFrom (i + 1) (rerelEntry (i + 1) b :: rerelFrom (i + 2) rest2) =
          true := by
        have : rerelFrom (i + 1) (b :: rest2) =
            rerelEntry (i + 1) b :: rerelFrom (i + 2) rest2 := rfl
        rw [← this]
        exact ih (i + 1) (fun e he => hb e (List.mem_cons_of_mem a he))
          (by simp at hlen ⊢; omega) hp.of_cons
      simp [hab, htail]

set_option maxHeartbeats 1000000 in
/-- Normalising the sentinel slot yields the absolute end of text, section-relative,
with value CANTUNWIND, whenever the ranges fit. -/
theorem norm_sentinel (shAddr textEnd n : Nat) (h1 : shAddr + 8 * n + 8 ≤ textEnd)
    (h2 : textEnd - shAddr < 2 ^ 30) :
    normEntry n (exidx_sentinel shAddr textEnd n) =
      ⟨textEnd - shAddr, CANTUNWIND⟩ := by
  have hv : exidx_is_relative (exidx_sentinel shAddr textEnd n).val = false := by
    unfold exidx_sentinel exidx_is_relative CANTUNWIND
    simp
  unfold normEntry
  rw [hv]
  simp only [Bool.false_eq_true, if_false, ExEntry.mk.injEq]
  refine ⟨?_, rfl⟩
  unfold exidx_sentinel u32 sign_extend
  norm_num
  split <;> omega

/-! ### Claim C2 -/

/-- Claim C2 as stated is false, on two counts at two concrete inputs.  First, with a
single CANTUNWIND input record covering a function below the end of text, the builder's
duplicate removal merges the synthetic sentinel into that record, so the last entry of
the returned buffer does not point to the end of the executable code.  Second, even on
a well-behaved input (distinct addresses below the end of text, no CANTUNWIND values),
two pointer-form records whose section-relative values differ by exactly their slot
distance are both kept by the duplicate removal yet re-relativise to equal stored
value fields, so the returned buffer has two adjacent entries with equal value
fields. -/
theorem C2_counterexample :
    exidx_claim_check [⟨0x10, 1⟩] 0 0x100 = false ∧
      exidx_claim_check [⟨0x10, 5⟩, ⟨0x18, 5⟩] 0 0x100 = false := by
  constructor
  · decide
  · decide

set_option maxHeartbeats 4000000 in
/-- Claim C2, amended: for every input whatsoever, the deduplicated table (the output
in its section-relative form, before the final re-relativisation, whose self-relative
value fields can collide as the counterexample shows) has no two adjacent entries with
equal value fields; and whenever the input's de-relativised (section-relative)
addresses are pairwise distinct and all lie below the end of text, its values are
never CANTUNWIND, and the sizes fit the signed 31-bit self-relative encodings, the
buffer returned by get_contents is strictly ascending by de-relativised start address
and ends with the CANTUNWIND sentinel whose de-relativised address is the end of the
executable code. -/
theorem C2_amended (input : List ExEntry) (shAddr textEnd : Nat) :
    adjValsDiffer (uniqAdj (List.insertionSort exLE (normFrom 0
      (input ++ [exidx_sentinel shAddr textEnd input.length])))) = true ∧
    (shAddr + 8 * input.length + 8 ≤ textEnd →
     textEnd - shAddr < 2 ^ 30 →
     ((normFrom 0 (input ++ [exidx_sentinel shAddr textEnd input.length])).map
       ExEntry.addr).Pairwise (· ≠ ·) →
     (∀ e ∈ normFrom 0 input, e.addr < textEnd - shAddr) →
     (∀ e ∈ normFrom 0 input, e.val ≠ CANTUNWIND) →
     strictAscFrom 0 (exidx_get_contents input shAddr textEnd) = true ∧
     ∃ e, (exidx_get_contents input shAddr textEnd).getLast? = some e ∧
       e.val = CANTUNWIND ∧
       (shAddr : Int) + derelAddr ((exidx_get_contents input shAddr textEnd).length - 1) e =
         (textEnd : Int)) := by
  refine ⟨adjValsDiffer_uniqAdj _, ?_⟩
  intro hT1 hT2 hA hS hV
  have hsentN : normEntry input.length (exidx_sentinel shAddr textEnd input.length) =
      ⟨textEnd - shAddr, CANTUNWIND⟩ := norm_sentinel _ _ _ hT1 hT2
  have hnormed : normFrom 0 (input ++ [exidx_sentinel shAddr textEnd input.length]) =
      normFrom 0 input ++ [(⟨textEnd - shAddr, CANTUNWIND⟩ : ExEntry)] := by
    rw [normFrom_append]
    simp only [normFrom, Nat.zero_add, hsentN]
  have hperm := List.perm_insertionSort exLE
    (normFrom 0 (input ++ [exidx_sentinel shAddr textEnd input.length]))
  have hsorted := List.sorted_insertionSort exLE
    (normFrom 0 (input ++ [exidx_sentinel shAddr textEnd input.length]))
  have hmem : ∀ y ∈ List.insertionSort exLE (normFrom 0
      (input ++ [exidx_sentinel shAddr textEnd input.length])),
      y ∈ normFrom 0 input ∨ y = (⟨textEnd - shAddr, CANTUNWIND⟩ : ExEntry) := by
    intro y hy
    have hy2 := hperm.mem_iff.mp hy
    rw [hnormed] at hy2
    rcases List.mem_append.mp hy2 with h | h
    · exact Or.inl h
    · exact Or.inr (by simpa using h)
  have hbound : ∀ y ∈ List.insertionSort exLE (normFrom 0
      (input ++ [exidx_sentinel shAddr textEnd input.length])), y.addr < 2 ^ 30 := by
    intro y hy
    rcases hmem y hy with h | rfl
    · have := hS y h
      omega
    · simpa using hT2
  have hsin : (⟨textEnd - shAddr, CANTUNWIND⟩ : ExEntry) ∈ List.insertionSort exLE
      (normFrom 0 (input ++ [exidx_sentinel shAddr textEnd input.length])) := by
    apply hperm.mem_iff.mpr
    rw [hnormed]
    exact List.mem_append.mpr (Or.inr (List.mem_singleton.mpr rfl))
  have hlast : (List.insertionSort exLE (normFrom 0
      (input ++ [exidx_sentinel shAddr textEnd input.length]))).getLast? =
      some ⟨textEnd - shAddr, CANTUNWIND⟩ := by
    apply sorted_max_last _ hsorted _ hsin
    intro y hy
    rcases hmem y hy with h | rfl
    · right
      simpa using hS y h
    · left
      rfl
  have hpairne : (List.insertionSort exLE (normFrom 0
      (input ++ [exidx_sentinel shAddr textEnd input.length]))).Pairwise
      (fun a b => a.addr ≠ b.addr) := by
    have hmap := hperm.map ExEntry.addr
    have hp := (List.Perm.pairwise_iff (fun h => Ne.symm h) hmap).mpr hA
    exact List.pairwise_map.mp hp
  have hsp : (List.insertionSort exLE (normFrom 0
      (input ++ [exidx_sentinel shAddr textEnd input.length]))).Pairwise exLE := hsorted
  have hlt : (List.insertionSort exLE (normFrom 0
      (input ++ [exidx_sentinel shAddr textEnd input.length]))).Pairwise
      (fun a b => a.addr < b.addr) :=
    (hsp.and hpairne).imp (fun hh => Nat.lt_of_le_of_ne hh.1 hh.2)
  have hdedsub := uniqAdj_sublist (List.insertionSort exLE (normFrom 0
    (input ++ [exidx_sentinel shAddr textEnd input.length])))
  have hdedlt := List.Pairwise.sublist hdedsub hlt
  have hdedbound : ∀ e ∈ uniqAdj (List.insertionSort exLE (normFrom 0
      (input ++ [exidx_sentinel shAddr textEnd input.length]))), e.addr < 2 ^ 30 :=
    fun e he => hbound e (hdedsub.subset he)
  have hlen1 : (normFrom 0 (input ++ [exidx_sentinel shAddr textEnd
      input.length])).length = input.length + 1 := by
    rw [length_normFrom]
    simp
  have hlen2 : (List.insertionSort exLE (normFrom 0 (input ++ [exidx_sentinel shAddr
      textEnd input.length]))).length = input.length + 1 := by
    rw [hperm.length_eq, hlen1]
  have hlen3 : (uniqAdj (List.insertionSort exLE (normFrom 0 (input ++ [exidx_sentinel
      shAddr textEnd input.length])))).length ≤ input.length + 1 := by
    rw [← hlen2]
    exact hdedsub.length_le
  have hout : exidx_get_contents input shAddr textEnd =
      rerelFrom 0 (uniqAdj (List.insertionSort exLE (normFrom 0
        (input ++ [exidx_sentinel shAddr textEnd input.length])))) := rfl
  refine ⟨?_, ?_⟩
  · rw [hout]
    exact strictAsc_rerel _ 0 hdedbound (by omega) hdedlt
  · have hne : List.insertionSort exLE (normFrom 0
        (input ++ [exidx_sentinel shAddr textEnd input.length])) ≠ [] := by
      intro h
      rw [h] at hlast
      simp at hlast
    have hdecomp := List.dropLast_append_getLast hne
    have hgl : (List.insertionSort exLE (normFrom 0 (input ++ [exidx_sentinel shAddr
        textEnd input.length]))).getLast hne = ⟨textEnd - shAddr, CANTUNWIND⟩ := by
      have h2 := List.getLast?_eq_getLast _ hne
      rw [hlast] at h2
      exact (Option.some.injEq _ _).mp h2.symm
    rw [hgl] at hdecomp
    have hvals : ∀ y ∈ (List.insertionSort exLE (normFrom 0 (input ++ [exidx_sentinel
        shAddr textEnd input.length]))).dropLast, y.val ≠ CANTUNWIND := by
      intro y hy
      have hymem : y ∈ List.insertionSort exLE (normFrom 0
          (input ++ [exidx_sentinel shAddr textEnd input.length])) := by
        rw [← hdecomp]
        exact List.mem_append.mpr (Or.inl hy)
      rcases hmem y hymem with h | rfl
      · exact hV y h
      · exfalso
        have hp2 := hpairne
        rw [← hdecomp] at hp2
        have hsep := (List.pairwise_append.mp hp2).2.2
        exact hsep _ hy _ (List.mem_singleton.mpr rfl) rfl
    have hdedlast : (uniqAdj (List.insertionSort exLE (normFrom 0 (input ++
        [exidx_sentinel shAddr textEnd input.length])))).getLast? =
        some ⟨textEnd - shAddr, CANTUNWIND⟩ := by
      have h3 := uniqAdj_append_last (List.insertionSort exLE (normFrom 0 (input ++
        [exidx_sentinel shAddr textEnd input.length]))).dropLast
        ⟨textEnd - shAddr, CANTUNWIND⟩ hvals
      rw [hdecomp] at h3
      exact h3
    have houtlast := rerelFrom_getLast? _ 0 _ hdedlast
    refine ⟨rerelEntry ((uniqAdj (List.insertionSort exLE (normFrom 0 (input ++
      [exidx_sentinel shAddr textEnd input.length])))).length - 1)
      ⟨textEnd - shAddr, CANTUNWIND⟩, ?_, ?_, ?_⟩
    · rw [hout]
      rw [houtlast]
      simp only [Option.some.injEq]
      rw [show (0 : Nat) + (uniqAdj (List.insertionSort exLE (normFrom 0 (input ++
        [exidx_sentinel shAddr textEnd input.length])))).length - 1 =
        (uniqAdj (List.insertionSort exLE (normFrom 0 (input ++
        [exidx_sentinel shAddr textEnd input.length])))).length - 1 from by omega]
    · exact rerelEntry_val_cant _ _ rfl
    · rw [hout, length_rerelFrom]
      rw [rerel_derel _ _ (by simpa using hT2) (by omega)]
      simp only [ExEntry.mk.injEq]
      omega

/-- Witness for C2_amended: one pointer-form record below the end of text. -/
theorem C2_witness :
    adjValsDiffer (uniqAdj (List.insertionSort exLE (normFrom 0
      ([⟨0x10, 0x80000005⟩] ++ [exidx_sentinel 0x1000 0x2000
        (List.length [(⟨0x10, 0x80000005⟩ : ExEntry)])])))) = true ∧
    (strictAscFrom 0 (exidx_get_contents [⟨0x10, 0x80000005⟩] 0x1000 0x2000) = true ∧
     ∃ e, (exidx_get_contents [⟨0x10, 0x80000005⟩] 0x1000 0x2000).getLast? = some e ∧
       e.val = CANTUNWIND ∧
       ((0x1000 : Nat) : Int) + derelAddr
         ((exidx_get_contents [⟨0x10, 0x80000005⟩] 0x1000 0x2000).length - 1) e =
         ((0x2000 : Nat) : Int)) :=
  ⟨(C2_amended [⟨0x10, 0x80000005⟩] 0x1000 0x2000).1,
    (C2_amended [⟨0x10, 0x80000005⟩] 0x1000 0x2000).2 (by decide) (by decide) (by decide)
      (by decide) (by decide)⟩

end Arm32
